import Mathlib

/-!
# Byte ECS: archetype world and views

A shallow embedding of `src/src/world.h`, `src/src/component.h` and `src/src/ecs.h`.

`world.h` includes `archetype.h`, `signature.h` and `sparse_vector.h`, which are not part of the
available sources.  The parts of them that `World` calls are modelled from the specification;
each such definition says so in its doc comment.  Everything else follows the source line by line.

Conventions of the embedding.

* An `Archetype*` is a pointer to a node of the `std::unordered_map<Signature, Archetype>`.  Nodes
  of an unordered map never move, so the pointer is modelled by the key of the node, and the null
  pointer by `none`.  Dereferencing goes through the map of the world at hand.
* The map is an association list; its list order is the (unspecified) iteration order.
* A component type is identified by its registry id; a component value is an integer.
* `Signature::matches`, which `View::include` and `View::exclude` call, is in the absent
  `signature.h` and the specification does not describe it: it is a parameter of their embedding.
* Undefined behaviour of the C++ (null dereference, reading past a column, access through a handle
  that designates no live slot, the end of a value-returning function reached without a `return`)
  is an explicit `Fault`.
-/

namespace Byte

/-! ## Handles, faults -/

/-- Entity handle of `src/ecs.h`: a slot index and a secondary disambiguator. -/
structure EntityID where
  index : Nat
  id : Nat := 0
  deriving DecidableEq, Repr

/-- Registry id of a component type. -/
abbrev ComponentID := Nat

/-- Value stored for one component of one entity. -/
abbrev Value := Int

/-- Ways in which an operation leaves defined behaviour. -/
inductive Fault where
  | invalidHandle
  | nullArchetype
  | danglingArchetype
  | rowOutOfRange
  | missingComponent
  | emptyCache
  | vectorOutOfRange
  | outOfFuel
  | missingReturn
  deriving DecidableEq, Repr

deriving instance DecidableEq for Except

/-! ## Signature -/

/-- Modelled from the spec: `Signature` of the absent `signature.h`, a bit-set in which bit `i` is
set iff component id `i` is present (§3). -/
structure Signature where
  bits : Nat
  deriving DecidableEq, Repr

namespace Signature

/-- Modelled from the spec: the signature with no bit set. -/
def empty : Signature := ⟨0⟩

/-- Modelled from the spec: `test(id)`, membership of one component id. -/
def test (s : Signature) (i : ComponentID) : Bool := s.bits.testBit i

/-- Modelled from the spec: `set(id, bool)` sets or clears one bit (§4.2). -/
def set (s : Signature) (i : ComponentID) (value : Bool) : Signature :=
  if value then ⟨s.bits ||| 2 ^ i⟩ else ⟨s.bits ^^^ (s.bits &&& 2 ^ i)⟩

/-- Modelled from the spec: the in-place union operator `+=` (§4.2). -/
def union (s other : Signature) : Signature := ⟨s.bits ||| other.bits⟩

/-- Modelled from the spec: `any()` tests non-empty (§4.2). -/
def any (s : Signature) : Bool := s.bits != 0

/-- Modelled from the spec: `includes(other)` tests other ⊆ self (§4.2). -/
def includes (s other : Signature) : Bool := (s.bits &&& other.bits) == other.bits

/-- Modelled from the spec: the overlap test that §4.2 requires for exclusion filters, next to
the superset test: some bit is set in both signatures. -/
def overlaps (s other : Signature) : Bool := (s.bits &&& other.bits) != 0

/-- Modelled from the spec: `build<T1..Tn>()`, the signature with exactly those bits set (§4.2). -/
def build (ids : List ComponentID) : Signature :=
  ids.foldl (fun s i => s.set i true) empty

end Signature

/-! ## Archetype -/

/-- Swap-remove on one column: the last element fills the hole at `row`, then the last slot is
dropped. -/
def swapRemove {α : Type} (l : List α) (row : Nat) : List α :=
  match l.getLast? with
  | some x => (l.set row x).dropLast
  | none => []

/-- Modelled from the spec: `Archetype` of the absent `archetype.h` (§3, §4.4): an immutable
signature, an entity column, and one value column per component id, row-aligned with the entity
column. -/
structure Archetype where
  signature : Signature
  entities : List EntityID
  columns : ComponentID → List Value

namespace Archetype

/-- Modelled from the spec: `empty()`, zero live rows. -/
def empty (a : Archetype) : Bool := a.entities.isEmpty

/-- Modelled from the spec: number of rows, as answered by `Cache::size()`. -/
def size (a : Archetype) : Nat := a.entities.length

/-- Modelled from the spec: `build<T1..Tn>()`, a new archetype with signature exactly
`{T1..Tn}` and no rows. -/
def build (ids : List ComponentID) : Archetype :=
  { signature := Signature.build ids, entities := [], columns := fun _ => [] }

/-- Modelled from the spec: `build<T1..Tn>(origin)`, a new archetype whose signature is the
signature of `origin` unioned with `{T1..Tn}`, with no rows. -/
def buildFrom (ids : List ComponentID) (origin : Archetype) : Archetype :=
  { signature := (Signature.build ids).union origin.signature, entities := [],
    columns := fun _ => [] }

/-- Modelled from the spec: `build(origin, droppedId)`, a new archetype whose signature is the
signature of `origin` minus one bit, with no rows. -/
def buildWithout (origin : Archetype) (dropped : ComponentID) : Archetype :=
  { signature := origin.signature.set dropped false, entities := [], columns := fun _ => [] }

/-- Modelled from the spec: `pushEntity(handle)` appends a row with no component data yet and
returns its row index. -/
def pushEntity (a : Archetype) (h : EntityID) : Archetype × Nat :=
  ({ a with entities := a.entities ++ [h] }, a.entities.length)

/-- Modelled from the spec: `pushComponent<T>(value)` appends into the column of `T`. -/
def pushComponent (a : Archetype) (c : ComponentID) (v : Value) : Archetype :=
  { a with columns := fun k => if k = c then a.columns c ++ [v] else a.columns k }

/-- Modelled from the spec: `carryEntity(sourceRow, handle, sourceArchetype)` copies the row
`sourceRow` of every column shared by both signatures into a new row here and returns the new row
index; columns only in the destination are left unfilled, columns only in the source are
dropped.  A source row that does not exist is a fault. -/
def carryEntity (dst : Archetype) (sourceRow : Nat) (h : EntityID) (src : Archetype) :
    Except Fault (Archetype × Nat) :=
  if sourceRow < src.entities.length then
    .ok ({ dst with
            entities := dst.entities ++ [h]
            columns := fun k =>
              if dst.signature.test k && src.signature.test k then
                dst.columns k ++ ((src.columns k)[sourceRow]?).toList
              else dst.columns k },
         dst.entities.length)
  else .error .rowOutOfRange

/-- Modelled from the spec: `erase(row)` swap-removes `row` from every column: the last row
fills the hole and the last slot is dropped (§3).  It returns the handle of the entity that the
move put into `row`, which is the entity of the last row.  When `row` is itself the last row no
other entity was moved; the specification calls the handle returned then the no-relocation
indicator and does not say which handle it is.  It is taken to be the handle of the last row in
this case too, that is the handle of the erased row itself: `World` writes a record through the
returned handle after every erase (`src/src/world.h:112,148`), and this is the handle for which
that write leaves every other entity alone, as §4.5 and the scenarios of §8 on a single entity
require.  A row that does not exist is a fault. -/
def erase (a : Archetype) (row : Nat) : Except Fault (Archetype × EntityID) :=
  if row < a.entities.length then
    match a.entities.getLast? with
    | some last =>
      .ok ({ a with
              entities := swapRemove a.entities row
              columns := fun k =>
                if a.signature.test k then swapRemove (a.columns k) row else a.columns k },
           last)
    | none => .error .rowOutOfRange
  else .error .rowOutOfRange

/-- Modelled from the spec: `getComponent<T>(row)`, the value of `T` at `row`; requires `T` in the
signature of the archetype. -/
def getComponent (a : Archetype) (c : ComponentID) (row : Nat) : Except Fault Value :=
  if a.signature.test c then
    match (a.columns c)[row]? with
    | some v => .ok v
    | none => .error .rowOutOfRange
  else .error .missingComponent

end Archetype

/-! ## Archetype map -/

/-- The `std::unordered_map<Signature, Archetype>` of `World`, `src/src/world.h:29`. -/
abbrev ArcheMap := List (Signature × Archetype)

namespace ArcheMap

/-- The expression `arches.find(signature)`: the node stored under a key, if any. -/
def find? : ArcheMap → Signature → Option Archetype
  | [], _ => none
  | (k, a) :: rest, s => if k = s then some a else find? rest s

/-- Dereference of an `Archetype*`. -/
def deref (m : ArcheMap) (p : Signature) : Except Fault Archetype :=
  match m.find? p with
  | some a => .ok a
  | none => .error .danglingArchetype

/-- The expression `arches[signature] = value`, also the write through an `Archetype*`:
overwrite the node stored under the key, or add a node. -/
def assign : ArcheMap → Signature → Archetype → ArcheMap
  | [], s, v => [(s, v)]
  | (k, a) :: rest, s, v => if k = s then (k, v) :: rest else (k, a) :: assign rest s v

/-- Keys of the map, in iteration order. -/
def keys (m : ArcheMap) : List Signature := m.map Prod.fst

end ArcheMap

/-! ## Entity index -/

/-- Record of one entity, `World::EntityData` (`src/src/world.h:33-36`): the physical row and the
archetype that holds it; `EntityData{}` is row 0 and the null archetype. -/
structure EntityData where
  index : Nat := 0
  arche : Option Signature := none
  deriving DecidableEq, Repr

/-- Modelled from the spec: one slot of the stable-handle container; `data` is `none` while the
slot is free, `generation` is the disambiguator of the handle issued for the slot. -/
structure Slot where
  generation : Nat
  data : Option EntityData
  deriving DecidableEq, Repr

/-- Modelled from the spec: `sparse_vector<EntityData>` of the absent `sparse_vector.h`, the
stable-handle container of §4.3 and §6.  A handle is resolved by its slot index alone: the
conversion of `EntityID` in `src/ecs.h:11-13` yields `index` and never the disambiguator. -/
structure EntityVector where
  slots : List Slot
  deriving DecidableEq, Repr

namespace EntityVector

/-- First free slot, if any. -/
def firstFree : List Slot → Option Nat
  | [] => none
  | s :: rest => if s.data.isNone then some 0 else (firstFree rest).map (· + 1)

/-- Modelled from the spec: `push(value)` inserts and returns a fresh handle; a freed slot is
used again. -/
def push (ev : EntityVector) (v : EntityData) : EntityID × EntityVector :=
  match firstFree ev.slots with
  | some i =>
    let g := ((ev.slots[i]?).map Slot.generation).getD 0
    ({ index := i, id := g }, { slots := ev.slots.set i { generation := g, data := some v } })
  | none =>
    ({ index := ev.slots.length, id := 0 },
     { slots := ev.slots ++ [{ generation := 0, data := some v }] })

/-- Modelled from the spec: `operator[](handle)`, read access; a handle whose slot holds no live
entity is rejected. -/
def get (ev : EntityVector) (h : EntityID) : Except Fault EntityData :=
  match ev.slots[h.index]? with
  | some { generation := _, data := some d } => .ok d
  | _ => .error .invalidHandle

/-- Modelled from the spec: `operator[](handle)`, write access. -/
def set (ev : EntityVector) (h : EntityID) (d : EntityData) : Except Fault EntityVector :=
  match ev.slots[h.index]? with
  | some { generation := g, data := some _ } =>
    .ok { slots := ev.slots.set h.index { generation := g, data := some d } }
  | _ => .error .invalidHandle

/-- Modelled from the spec: `erase(handle)` retires the handle and frees the slot for reuse.  The
handle it returns concerns the dense storage inside the container and is discarded by `World`. -/
def erase (ev : EntityVector) (h : EntityID) : Except Fault EntityVector :=
  match ev.slots[h.index]? with
  | some { generation := g, data := some _ } =>
    .ok { slots := ev.slots.set h.index { generation := g + 1, data := none } }
  | _ => .error .invalidHandle

/-- Modelled from the spec: `size()`, the number of live entities. -/
def size (ev : EntityVector) : Nat := (ev.slots.filter (fun s => s.data.isSome)).length

/-- The statement `entities[changedEntity].index = entities[id].index` of `World::attach` and
`World::detach` (`src/src/world.h:112,148`), where `changedEntity` is the handle that
`Archetype::erase` returned and `row` the recorded row of `id`.  It is executed after every
erase, whatever handle was returned. -/
def patchIndex (ev : EntityVector) (changedEntity : EntityID) (row : Nat) :
    Except Fault EntityVector :=
  match ev.get changedEntity with
  | .ok d => ev.set changedEntity { d with index := row }
  | .error e => .error e

end EntityVector

/-! ## World -/

/-- The class `World`, `src/src/world.h:40-42`. -/
structure World where
  arches : ArcheMap
  entities : EntityVector

namespace World

/-- The default-constructed world. -/
def empty : World := { arches := [], entities := { slots := [] } }

/-- Embedding of `World::createEntity()`, `src/src/world.h:60-62`. -/
def createEntity (w : World) : EntityID × World :=
  let r := w.entities.push {}
  (r.1, { w with entities := r.2 })

/-- Embedding of `World::size()`, `src/src/world.h:175-177`. -/
def size (w : World) : Nat := w.entities.size

/-- Embedding of `World::destroyEntity`, `src/src/world.h:71-74`.  The archetype pointer of the
record is dereferenced without a null test. -/
def destroyEntity (w : World) (id : EntityID) : Except Fault World := do
  let ed ← w.entities.get id
  match ed.arche with
  | none => .error .nullArchetype
  | some p =>
    let a ← w.arches.deref p
    let r ← a.erase ed.index
    let entities ← w.entities.erase id
    pure { arches := w.arches.assign p r.1, entities := entities }

/-- Lines 93-105 of `World::attach`: find the destination archetype or build it. -/
def attachDestination (m : ArcheMap) (ids : List ComponentID) (oldArche : Option Signature)
    (signature : Signature) : Except Fault ArcheMap :=
  match m.find? signature with
  | some _ => .ok m
  | none =>
    match oldArche with
    | some p =>
      match m.deref p with
      | .ok old => .ok (m.assign signature (Archetype.buildFrom ids old))
      | .error e => .error e
    | none => .ok (m.assign signature (Archetype.build ids))

/-- Lines 118-119 of `World::attach`: one `pushComponent` per attached component. -/
def pushComponents (a : Archetype) (components : List (ComponentID × Value)) : Archetype :=
  components.foldl (fun acc c => acc.pushComponent c.1 c.2) a

/-- Embedding of `World::attach`, `src/src/world.h:82-123`. -/
def attach (w : World) (id : EntityID) (component : ComponentID × Value)
    (components : List (ComponentID × Value)) : Except Fault World := do
  let ids := (component :: components).map Prod.fst
  let ed ← w.entities.get id
  let oldArche := ed.arche
  let signature ← match oldArche with
    | some p => (w.arches.deref p).map (fun old => (Signature.build ids).union old.signature)
    | none => pure (Signature.build ids)
  let arches1 ← attachDestination w.arches ids oldArche signature
  let newArche := signature
  let moved ← match oldArche with
    | some p => do
      let src ← arches1.deref p
      let dst ← arches1.deref newArche
      let carried ← dst.carryEntity ed.index id src
      let arches2 := arches1.assign newArche carried.1
      let src2 ← arches2.deref p
      let erased ← src2.erase ed.index
      let entities ← w.entities.patchIndex erased.2 ed.index
      pure (arches2.assign p erased.1, entities, carried.2)
    | none => do
      let dst ← arches1.deref newArche
      let pushed := dst.pushEntity id
      pure (arches1.assign newArche pushed.1, w.entities, pushed.2)
  let dst ← moved.1.deref newArche
  let arches3 := moved.1.assign newArche (pushComponents dst (component :: components))
  let entities3 ← moved.2.1.set id { index := moved.2.2, arche := some newArche }
  pure { arches := arches3, entities := entities3 }

/-- Embedding of `World::detach<Component>`, `src/src/world.h:125-152`. -/
def detach (w : World) (id : EntityID) (component : ComponentID) : Except Fault World := do
  let ed ← w.entities.get id
  match ed.arche with
  | none => .error .nullArchetype
  | some p =>
    let old ← w.arches.deref p
    let signature := old.signature.set component false
    let carried ←
      if signature.any then do
        let arches0 := match w.arches.find? signature with
          | none => w.arches.assign signature (Archetype.buildWithout old component)
          | some _ => w.arches
        let src ← arches0.deref p
        let dst ← arches0.deref signature
        let c ← dst.carryEntity ed.index id src
        pure (arches0.assign signature c.1, c.2, some signature)
      else pure (w.arches, 0, none)
    let src ← carried.1.deref p
    let erased ← src.erase ed.index
    let entities1 ← w.entities.patchIndex erased.2 ed.index
    let entities2 ← entities1.set id { index := carried.2.1, arche := carried.2.2 }
    pure { arches := carried.1.assign p erased.1, entities := entities2 }

/-- Embedding of `World::get<Component>`, `src/src/world.h:154-162`. -/
def get (w : World) (id : EntityID) (component : ComponentID) : Except Fault Value := do
  let ed ← w.entities.get id
  match ed.arche with
  | none => .error .nullArchetype
  | some p =>
    let a ← w.arches.deref p
    a.getComponent component ed.index

/-- Embedding of `World::has<Component>`, `src/src/world.h:164-173`. -/
def has (w : World) (id : EntityID) (component : ComponentID) : Except Fault Bool := do
  let ed ← w.entities.get id
  match ed.arche with
  | some p =>
    let a ← w.arches.deref p
    pure (a.signature.test component)
  | none => pure false

end World

/-! ## Views -/

/-- Modelled from the spec: `Archetype::Cache<Components...>` of the absent `archetype.h`: the
column references of one archetype, resolved once (§4.4).  It is the pointer of that archetype;
the default-constructed cache refers to none. -/
structure Cache where
  arche : Option Signature
  deriving DecidableEq, Repr

namespace Cache

/-- Modelled from the spec: `Cache::size()`, the row count of the cached archetype. -/
def size (w : World) (c : Cache) : Except Fault Nat :=
  match c.arche with
  | some p => (w.arches.deref p).map Archetype.size
  | none => .error .emptyCache

/-- Modelled from the spec: `Cache::group(row)`, the tuple of the values of `Components...` at
`row`. -/
def group (w : World) (components : List ComponentID) (c : Cache) (row : Nat) :
    Except Fault (List Value) :=
  match c.arche with
  | some p =>
    match w.arches.deref p with
    | .ok a => components.mapM (fun k => a.getComponent k row)
    | .error e => .error e
  | none => .error .emptyCache

end Cache

/-- The class `World::ViewIterator`, `src/src/world.h:198-202`. -/
structure ViewIterator where
  arches : List Signature
  cacheIndex : Nat
  index : Nat
  cache : Cache
  deriving DecidableEq, Repr

namespace ViewIterator

/-- The constructor `ViewIterator(archeVector, cacheIndex, index)`, `src/src/world.h:205-210`. -/
def new (archeVector : List Signature) (cacheIndex index : Nat) : ViewIterator :=
  { arches := archeVector
    cacheIndex := cacheIndex
    index := index
    cache := if cacheIndex < archeVector.length then { arche := archeVector[cacheIndex]? }
             else { arche := none } }

/-- Embedding of `ViewIterator::operator++`, `src/src/world.h:212-224`. -/
def next (w : World) (it : ViewIterator) : Except Fault ViewIterator := do
  let index := it.index + 1
  let size ← it.cache.size w
  if index = size then
    let cacheIndex := it.cacheIndex + 1
    if cacheIndex ≠ it.arches.length then
      match it.arches[cacheIndex]? with
      | some p =>
        pure { it with index := 0, cacheIndex := cacheIndex, cache := { arche := some p } }
      | none => .error .vectorOutOfRange
    else pure { it with index := 0, cacheIndex := cacheIndex }
  else pure { it with index := index }

/-- Embedding of `ViewIterator::operator*`, `src/src/world.h:226-228`. -/
def deref (w : World) (components : List ComponentID) (it : ViewIterator) :
    Except Fault (List Value) :=
  it.cache.group w components it.index

/-- Embedding of `ViewIterator::operator==`, `src/src/world.h:230-232`. -/
def eq (it left : ViewIterator) : Bool := it.cacheIndex == left.cacheIndex

/-- Embedding of `ViewIterator::operator!=`, `src/src/world.h:234-236`. -/
def ne (it left : ViewIterator) : Bool := !(it.eq left)

end ViewIterator

/-- The class `World::View<Components...>`, `src/src/world.h:240-247`; the template arguments are
the field `components`. -/
structure View where
  components : List ComponentID
  archeVector : List Signature
  deriving DecidableEq, Repr

namespace View

/-- The constructor `View(World&)`, `src/src/world.h:250-258`. -/
def new (w : World) (components : List ComponentID) : View :=
  { components := components
    archeVector :=
      (w.arches.filter (fun pair =>
        pair.2.signature.includes (Signature.build components) && !pair.2.empty)).map Prod.fst }

/-- Embedding of `View::begin`, `src/src/world.h:260-262`. -/
def begin (v : View) : ViewIterator := ViewIterator.new v.archeVector 0 0

/-- Embedding of `View::end`, `src/src/world.h:264-266`: the constructor receives `0` as
`cacheIndex` and the number of matched archetypes as `index`. -/
def endIterator (v : View) : ViewIterator := ViewIterator.new v.archeVector 0 v.archeVector.length

/-- The loop of `View::include`, `src/src/world.h:273-277`.  `Signature::matches` is in the
absent `signature.h` and the specification does not describe it: it is the parameter
`matchesFn`, applied to the signature of the archetype and the signature built from `Xs`. -/
def includeLoop (matchesFn : Signature → Signature → Bool) (w : World) (signature : Signature) :
    List Signature → Except Fault (List Signature)
  | [] => .ok []
  | p :: rest =>
    match w.arches.deref p, includeLoop matchesFn w signature rest with
    | .ok arche, .ok newArches =>
      if !matchesFn arche.signature signature && !arche.empty then .ok (p :: newArches)
      else .ok newArches
    | .error e, _ => .error e
    | _, .error e => .error e

/-- The statements of the body of `View::include<Xs...>`, `src/src/world.h:270-279`: the view
after `archeVector = newArches`. -/
def includeBody (matchesFn : Signature → Signature → Bool) (w : World) (v : View)
    (xs : List ComponentID) : Except Fault View :=
  (includeLoop matchesFn w (Signature.build xs) v.archeVector).map
    (fun newArches => { v with archeVector := newArches })

/-- Embedding of `View::include<Xs...>`, `src/src/world.h:268-280` (`include` is reserved in
Lean).  The function is declared to return a `View` and its body ends after
`archeVector = newArches` without a `return` statement: control reaches the end of a
value-returning function and no view is returned. -/
def includeView (matchesFn : Signature → Signature → Bool) (w : World) (v : View)
    (xs : List ComponentID) : Except Fault View :=
  match includeBody matchesFn w v xs with
  | .ok _ => .error .missingReturn
  | .error e => .error e

/-- The loop of `View::exclude`, `src/src/world.h:287-291`, with `Signature::matches` as the
parameter `matchesFn`. -/
def excludeLoop (matchesFn : Signature → Signature → Bool) (w : World) (signature : Signature) :
    List Signature → Except Fault (List Signature)
  | [] => .ok []
  | p :: rest =>
    match w.arches.deref p, excludeLoop matchesFn w signature rest with
    | .ok arche, .ok newArches =>
      if !matchesFn arche.signature signature && !arche.empty then .ok (p :: newArches)
      else .ok newArches
    | .error e, _ => .error e
    | _, .error e => .error e

/-- The statements of the body of `View::exclude<Xs...>`, `src/src/world.h:284-293`: the view
after `archeVector = newArches`. -/
def excludeBody (matchesFn : Signature → Signature → Bool) (w : World) (v : View)
    (xs : List ComponentID) : Except Fault View :=
  (excludeLoop matchesFn w (Signature.build xs) v.archeVector).map
    (fun newArches => { v with archeVector := newArches })

/-- Embedding of `View::exclude<Xs...>`, `src/src/world.h:282-294`.  The function is declared to
return a `View` and its body ends after `archeVector = newArches` without a `return` statement:
control reaches the end of a value-returning function and no view is returned. -/
def exclude (matchesFn : Signature → Signature → Bool) (w : World) (v : View)
    (xs : List ComponentID) : Except Fault View :=
  match excludeBody matchesFn w v xs with
  | .ok _ => .error .missingReturn
  | .error e => .error e

/-- The range-for loop over a view: from `begin()`, while the iterator differs from `stop`, yield
`*it` and apply `++it`. -/
def collectFrom (w : World) (v : View) (stop : ViewIterator) :
    Nat → ViewIterator → Except Fault (List (List Value))
  | 0, it => if it.ne stop then .error .outOfFuel else .ok []
  | fuel + 1, it =>
    if it.ne stop then
      match it.deref w v.components, it.next w with
      | .ok g, .ok it2 => (collectFrom w v stop fuel it2).map (fun rest => g :: rest)
      | .error e, _ => .error e
      | _, .error e => .error e
    else .ok []

/-- Iteration of a view from `begin()` to `end()`. -/
def collect (w : World) (v : View) (fuel : Nat) : Except Fault (List (List Value)) :=
  collectFrom w v v.endIterator fuel v.begin

end View

/-! ## Concrete worlds used by the closed statements -/

namespace Scenario

/-- Registry id of the component type `Position`, also of `A`. -/
def position : ComponentID := 0

/-- Registry id of the component type `Velocity`, also of `B`. -/
def velocity : ComponentID := 1

/-- Registry id of the component type `C`. -/
def compC : ComponentID := 2

/-- Handle returned by the first `createEntity()` on the empty world. -/
def e1 : EntityID := World.empty.createEntity.1

/-- World after one `createEntity()`. -/
def created1 : World := World.empty.createEntity.2

/-- Handle returned by the second `createEntity()`. -/
def e2 : EntityID := created1.createEntity.1

/-- World after two `createEntity()`. -/
def created2 : World := created1.createEntity.2

/-- Handle returned by the third `createEntity()`. -/
def e3 : EntityID := created2.createEntity.1

/-- World after three `createEntity()`. -/
def created3 : World := created2.createEntity.2

/-- The world of a run that did not fault; the empty world stands for a faulted run. -/
def orEmpty (r : Except Fault World) : World :=
  match r with
  | .ok w => w
  | .error _ => World.empty

/-- The scenario of §8: `{Position}` attached to `e1`, `{Position, Velocity}` to `e2`,
`{Velocity}` to `e3`. -/
def positionVelocity : World := orEmpty (do
  let a ← created3.attach e1 (position, 10) []
  let b ← a.attach e2 (position, 20) [(velocity, 21)]
  b.attach e3 (velocity, 31) [])

/-- Archetypes `{A,B}` (holding `e1`) and `{A,B,C}` (holding `e2`). -/
def abAndAbc : World := orEmpty (do
  let a ← created3.attach e1 (position, 1) [(velocity, 2)]
  a.attach e2 (position, 3) [(velocity, 4), (compC, 5)])

/-- One entity `e1` with `{Position}`. -/
def onePosition : World := orEmpty (created3.attach e1 (position, 10) [])

/-- The world `onePosition` after `detach<Position>(e1)`: the archetype `{Position}` is still in
the map and has no rows. -/
def onePositionDetached : World := orEmpty (onePosition.detach e1 position)

/-- Two entities with `{Position}`, `e1` in row 0 and `e2` in row 1 of one archetype. -/
def twoPositions : World := orEmpty (do
  let a ← created3.attach e1 (position, 10) []
  a.attach e2 (position, 20) [])

end Scenario

/-! ## Invariant of the world, scripts of calls -/

/-- Location invariant of a world: the map has distinct keys; the archetype stored under a key
has that signature; every column of a signature bit is as long as the entity column; the record
of every handle in an entity column points back at that archetype and row; and the record of an
attached entity designates a row of an archetype of the map that holds a handle of its slot. -/
structure World.WellFormed (w : World) : Prop where
  keysNodup : w.arches.keys.Nodup
  signatureKey : ∀ s a, w.arches.find? s = some a → a.signature = s
  aligned : ∀ s a, w.arches.find? s = some a →
    ∀ c, s.test c = true → (a.columns c).length = a.entities.length
  rowsRecorded : ∀ s a, w.arches.find? s = some a →
    ∀ row h, a.entities[row]? = some h → w.entities.get h = .ok { index := row, arche := some s }
  recordsPlaced : ∀ h d s, w.entities.get h = .ok d → d.arche = some s →
    ∃ a, w.arches.find? s = some a ∧ ∃ h2, a.entities[d.index]? = some h2 ∧ h2.index = h.index

/-- Signature an entity currently has: the key of its archetype, the empty signature for an
Unattached entity. -/
def World.signatureOf (w : World) (e : EntityID) : Signature :=
  match w.entities.get e with
  | .ok d => d.arche.getD Signature.empty
  | .error _ => Signature.empty

/-- One call on an entity: `attach(e, component, components...)` or `detach<component>(e)`. -/
inductive Op where
  | attach (component : ComponentID × Value) (components : List (ComponentID × Value))
  | detach (component : ComponentID)

namespace Op

/-- The call as applied by the code. -/
def apply (w : World) (e : EntityID) : Op → Except Fault World
  | .attach component components => w.attach e component components
  | .detach component => w.detach e component

/-- Signature the claim assigns to the entity after a call: the previous signature unioned with
the attached ids, or the previous signature with the detached bit cleared. -/
def target (s : Signature) : Op → Signature
  | .attach component components =>
    (Signature.build ((component :: components).map Prod.fst)).union s
  | .detach component => s.set component false

/-- The precondition of a call on an entity of signature `s`: an attach names pairwise distinct
types none of which the entity carries, a detach names a type the entity carries. -/
def permitted (s : Signature) : Op → Prop
  | .attach component components =>
    ((component :: components).map Prod.fst).Nodup ∧
      ∀ c ∈ (component :: components).map Prod.fst, s.test c = false
  | .detach component => s.test component = true

/-- Types carried after a call, given the types carried before, in the words of the claim. -/
def carried (before : ComponentID → Bool) : Op → ComponentID → Bool
  | .attach component components => fun t =>
    before t || decide (t ∈ (component :: components).map Prod.fst)
  | .detach component => fun t => before t && decide (t ≠ component)

end Op

/-- A finite sequence of calls on one entity, applied in order. -/
def World.run (w : World) (e : EntityID) : List Op → Except Fault World
  | [] => .ok w
  | op :: rest =>
    match op.apply w e with
    | .ok w2 => World.run w2 e rest
    | .error f => .error f

/-- Every call of the sequence meets its precondition at the signature the entity has then. -/
def Op.allPermitted (s : Signature) : List Op → Prop
  | [] => True
  | op :: rest => op.permitted s ∧ Op.allPermitted (op.target s) rest

/-- Signature after a sequence of calls, by the rule of the claim. -/
def Op.net (s : Signature) (ops : List Op) : Signature := ops.foldl Op.target s

/-- The archetype after `carryEntity(sourceRow, h, src)` on an existing source row. -/
def Archetype.carried (dst : Archetype) (sourceRow : Nat) (h : EntityID) (src : Archetype) :
    Archetype :=
  { dst with
    entities := dst.entities ++ [h]
    columns := fun k =>
      if dst.signature.test k && src.signature.test k then
        dst.columns k ++ ((src.columns k)[sourceRow]?).toList
      else dst.columns k }

/-- The archetype after `erase(row)` on an existing row. -/
def Archetype.erased (a : Archetype) (row : Nat) : Archetype :=
  { a with
    entities := swapRemove a.entities row
    columns := fun k =>
      if a.signature.test k then swapRemove (a.columns k) row else a.columns k }

/-- The world `w2` is the world `w` after the Unattached entity `e` became the new last row of
the archetype `q`: `dst` is that archetype before, `dstF` after, with one value more in every
column of the signature. -/
structure World.Placed (w w2 : World) (e : EntityID) (q : Signature) (dst dstF : Archetype) :
    Prop where
  live : ∃ i, w.entities.get e = .ok { index := i, arche := none }
  findDst : w.arches.find? q = some dst
  signatureF : dstF.signature = dst.signature
  entitiesF : dstF.entities = dst.entities ++ [e]
  columnsF : ∀ c, q.test c = true → ∃ v, dstF.columns c = dst.columns c ++ [v]
  keys : w2.arches.keys.Nodup
  arches : ∀ s, w2.arches.find? s = if s = q then some dstF else w.arches.find? s
  entities : ∀ f, w2.entities.get f =
    if f.index = e.index then .ok { index := dst.entities.length, arche := some q }
    else w.entities.get f

/-- The world `w2` is the world `w` after the entity `e`, recorded as `d` in the archetype `p`,
was erased from `p` and became Unattached, the record of the entity relocated by the erase being
patched. -/
structure World.Removed (w w2 : World) (e : EntityID) (d : EntityData) (p : Signature)
    (src : Archetype) : Prop where
  live : w.entities.get e = .ok d
  arche : d.arche = some p
  findSrc : w.arches.find? p = some src
  keys : w2.arches.keys.Nodup
  arches : ∀ s, w2.arches.find? s =
    if s = p then some (src.erased d.index) else w.arches.find? s
  entities : ∀ f, w2.entities.get f =
    if f.index = e.index then .ok { index := 0, arche := none }
    else match (src.erased d.index).entities[d.index]? with
      | some moved =>
        if f.index = moved.index then .ok { index := d.index, arche := some p }
        else w.entities.get f
      | none => w.entities.get f

/-- The entity that an erase of the row of `e` relocates: the entity of the last row of the
archetype of `e`, unless the row of `e` is itself the last row (then none is relocated). -/
def World.relocatedBy (w : World) (e : EntityID) : Option EntityID :=
  match w.entities.get e with
  | .ok d =>
    match d.arche with
    | some p =>
      match w.arches.find? p with
      | some src =>
        if d.index + 1 < src.entities.length then src.entities[src.entities.length - 1]?
        else none
      | none => none
    | none => none
  | .error _ => none

/-- The record of another entity `f` after the row of `e`, recorded as `d`, was erased: the
relocated entity is recorded at the row `e` had, every other record is as before. -/
def World.recordAfterErase (w : World) (e : EntityID) (d : EntityData) (f : EntityID) :
    Except Fault EntityData :=
  match w.relocatedBy e with
  | some moved =>
    if f.index = moved.index then .ok { index := d.index, arche := d.arche }
    else w.entities.get f
  | none => w.entities.get f

/-- Modelled from the spec: `Archetype::copyEntity(row, handle, source)` of the absent
`archetype.h`, which `World::copyEntity` calls: the row `sourceRow` of `source` is duplicated, in
every column shared by both signatures, as a new last row here under the handle `h` (§4.5:
duplicate a source entity's full row into a new entity in the same archetype); the result is the
archetype and the index of the new row. -/
def Archetype.copyEntity (dst : Archetype) (sourceRow : Nat) (h : EntityID) (src : Archetype) :
    Except Fault (Archetype × Nat) :=
  dst.carryEntity sourceRow h src

/-- Embedding of `World::copyEntity`, `src/src/world.h:76-80`.  The first argument of
`Archetype::copyEntity` is written `entities[source]` in the source; its row is passed.  The
body assigns `entities[out].arche` and never `entities[out].index`, and it ends without a
`return` statement: the function hands no handle back, the result is the world after the
body. -/
def World.copyEntity (w : World) (source : EntityID) : Except Fault World := do
  let created := w.createEntity
  let out := created.1
  let w1 := created.2
  let ed ← w1.entities.get source
  match ed.arche with
  | none => .error .nullArchetype
  | some p =>
    let a ← w1.arches.deref p
    let copied ← a.copyEntity ed.index out a
    let edOut ← w1.entities.get out
    let entities ← w1.entities.set out { edOut with arche := ed.arche }
    pure { arches := w1.arches.assign p copied.1, entities := entities }

/-! ## Component identity registry -/

/-- The class `ComponentIDGenerator<ComponentID>`, `src/src/component.h:7-18`: the static counter
`nextID`, a value of the unsigned integer type `ComponentID`. -/
structure ComponentIDGenerator where
  nextID : Nat
  deriving DecidableEq, Repr

namespace ComponentIDGenerator

/-- The initial state, `nextID{ 0 }` (`src/src/component.h:10`). -/
def initial : ComponentIDGenerator := { nextID := 0 }

/-- Embedding of `ComponentIDGenerator::generate`, `src/src/component.h:13-16`:
`return nextID++;` on a `ComponentID` of `width` bits. -/
def generate (width : Nat) (g : ComponentIDGenerator) : Nat × ComponentIDGenerator :=
  (g.nextID, { nextID := (g.nextID + 1) % 2 ^ width })

/-- The values returned by `count` successive calls of `generate`. -/
def generated (width : Nat) : Nat → ComponentIDGenerator → List Nat
  | 0, _ => []
  | count + 1, g => (g.generate width).1 :: generated width count (g.generate width).2

end ComponentIDGenerator

/-- The static members `ComponentRegistry<T, ComponentID>::_id` of one `ComponentID`
configuration, `src/src/component.h:20-35`, with the generator they share: `ids` holds, by
component type (a tag of the C++ type), the `_id` of every registry class instantiated so far. -/
structure ComponentRegistry where
  generator : ComponentIDGenerator
  ids : List (Nat × Nat)
  deriving DecidableEq, Repr

namespace ComponentRegistry

/-- No registry class instantiated yet. -/
def initial : ComponentRegistry := { generator := ComponentIDGenerator.initial, ids := [] }

/-- Embedding of `ComponentRegistry::id`, `src/src/component.h:27-29`: the `_id` of the type. -/
def id (r : ComponentRegistry) (type : Nat) : Option Nat :=
  (r.ids.find? (fun p => p.1 == type)).map Prod.snd

/-- The initialiser of `_id`, `src/src/component.h:23-24`, run once for a component type:
`_id{ ComponentIDGenerator<ComponentID>::generate<Component>() }`. -/
def register (width : Nat) (r : ComponentRegistry) (type : Nat) : ComponentRegistry :=
  match r.id type with
  | some _ => r
  | none =>
    { generator := (r.generator.generate width).2
      ids := r.ids ++ [(type, (r.generator.generate width).1)] }

/-- Registration of several component types, in the order of their first use. -/
def registerAll (width : Nat) (r : ComponentRegistry) (types : List Nat) : ComponentRegistry :=
  types.foldl (register width) r

/-- Embedding of `ComponentRegistry::set`, `src/src/component.h:31-33`: `_id = newID`. -/
def set (r : ComponentRegistry) (type : Nat) (newID : Nat) : ComponentRegistry :=
  { r with ids := r.ids.map (fun p => if p.1 == type then (p.1, newID) else p) }

end ComponentRegistry

/-! ## Iteration of a view -/

/-- Whether one `ViewIterator::operator++` executes the statement `cache = Cache{ ... }` of
`src/src/world.h:219`: the branches are those of `ViewIterator.next`. -/
def ViewIterator.rebuilds (w : World) (it : ViewIterator) : Except Fault Bool := do
  let index := it.index + 1
  let size ← it.cache.size w
  if index = size then
    let cacheIndex := it.cacheIndex + 1
    if cacheIndex ≠ it.arches.length then
      match it.arches[cacheIndex]? with
      | some _ => pure true
      | none => .error .vectorOutOfRange
    else pure false
  else pure false

/-- The iterator after `count` applications of `ViewIterator::operator++`. -/
def ViewIterator.advance (w : World) : Nat → ViewIterator → Except Fault ViewIterator
  | 0, it => .ok it
  | count + 1, it => do
    let it2 ← it.next w
    ViewIterator.advance w count it2

/-- Row counts of a list of matched archetypes, in the order of the list. -/
def World.rowCounts (w : World) (arches : List Signature) : List Nat :=
  arches.map (fun p =>
    match w.arches.find? p with
    | some a => a.size
    | none => 0)

/-- The positions `(i, 0), ..., (i, n_i - 1), (i + 1, 0), ...` of the archetypes with the row
counts `n_i, n_(i+1), ...`, in the order of the iteration. -/
def View.positionsFrom (i : Nat) : List Nat → List (Nat × Nat)
  | [] => []
  | n :: rest => (List.range n).map (fun row => (i, row)) ++ View.positionsFrom (i + 1) rest

/-- The positions `(0, 0), ..., (0, n_0 - 1), (1, 0), ..., (m - 1, n_(m-1) - 1)`. -/
def View.positions (counts : List Nat) : List (Nat × Nat) := View.positionsFrom 0 counts

/-! ## Reachable worlds -/

/-- Shape of the entity index: for every slot its disambiguator and whether it holds an
entity. -/
def EntityVector.shape (ev : EntityVector) : List (Nat × Bool) :=
  ev.slots.map (fun s => (s.generation, s.data.isSome))

/-- Modelled from the spec: a live handle, one that `push` returned and `erase` has not
retired: its slot holds an entity and the disambiguator of the handle is the one of the slot. -/
def EntityVector.live (ev : EntityVector) (h : EntityID) : Prop :=
  ev.shape[h.index]? = some (h.id, true)

instance (ev : EntityVector) (h : EntityID) : Decidable (ev.live h) :=
  inferInstanceAs (Decidable (ev.shape[h.index]? = some (h.id, true)))

/-! ## Signature -/
namespace Signature

theorem ext_test {s t : Signature} (h : ∀ i, s.test i = t.test i) : s = t := by
  cases s with | mk a => cases t with | mk b =>
  simp only [test] at h
  rw [Nat.eq_of_testBit_eq h]

theorem test_empty (i : ComponentID) : empty.test i = false := by
  simp [empty, test]

theorem test_set (s : Signature) (i : ComponentID) (v : Bool) (j : ComponentID) :
    (s.set i v).test j = if j = i then v else s.test j := by
  cases v
  · simp only [set, test, Bool.false_eq_true, if_false, Nat.testBit_xor, Nat.testBit_and,
      Nat.testBit_two_pow]
    by_cases h : j = i
    · subst h; simp
    · have h2 : ¬ i = j := fun e => h e.symm
      simp [h, h2]
  · simp only [set, test, if_true, Nat.testBit_or, Nat.testBit_two_pow]
    by_cases h : j = i
    · subst h; simp
    · have h2 : ¬ i = j := fun e => h e.symm
      simp [h, h2]

theorem test_union (s t : Signature) (i : ComponentID) :
    (s.union t).test i = (s.test i || t.test i) := by
  simp [union, test, Nat.testBit_or]

theorem test_foldl_set (ids : List ComponentID) (s : Signature) (i : ComponentID) :
    (ids.foldl (fun s i => s.set i true) s).test i = (s.test i || decide (i ∈ ids)) := by
  induction ids generalizing s with
  | nil => simp
  | cons a rest ih =>
    simp only [List.foldl_cons, ih, test_set, List.mem_cons]
    by_cases h : i = a <;> simp [h]

theorem test_build (ids : List ComponentID) (i : ComponentID) :
    (build ids).test i = decide (i ∈ ids) := by
  simp [build, test_foldl_set, test_empty]

theorem includes_iff (s o : Signature) :
    s.includes o = true ↔ ∀ i, o.test i = true → s.test i = true := by
  simp only [includes, test, beq_iff_eq]
  constructor
  · intro h i hi
    rw [← h, Nat.testBit_and] at hi
    simp at hi
    exact hi.1
  · intro h
    apply Nat.eq_of_testBit_eq
    intro i
    rw [Nat.testBit_and]
    cases ho : o.bits.testBit i
    · simp
    · simp [h i ho]

theorem overlaps_iff (s o : Signature) :
    s.overlaps o = true ↔ ∃ i, s.test i = true ∧ o.test i = true := by
  simp only [overlaps, test, bne_iff_ne, ne_eq]
  constructor
  · intro h
    obtain ⟨i, hi⟩ := Nat.ne_zero_implies_bit_true h
    rw [Nat.testBit_and] at hi
    simp at hi
    exact ⟨i, hi⟩
  · rintro ⟨i, h1, h2⟩ h0
    have : (s.bits &&& o.bits).testBit i = true := by rw [Nat.testBit_and]; simp [h1, h2]
    rw [h0] at this
    simp at this

theorem any_iff (s : Signature) : s.any = true ↔ ∃ i, s.test i = true := by
  simp only [any, test, bne_iff_ne, ne_eq]
  constructor
  · intro h
    exact Nat.ne_zero_implies_bit_true h
  · rintro ⟨i, h1⟩ h0
    rw [h0] at h1
    simp at h1

end Signature

/-! ## Columns -/

theorem length_swapRemove {α : Type} (l : List α) (row : Nat) (h : row < l.length) :
    (swapRemove l row).length = l.length - 1 := by
  cases hl : l.getLast? with
  | none =>
    rw [List.getLast?_eq_none_iff] at hl
    subst hl
    simp at h
  | some x => simp [swapRemove, hl]

theorem getElem?_swapRemove {α : Type} (l : List α) (row j : Nat) (h : row < l.length) :
    (swapRemove l row)[j]? =
      if j + 1 < l.length then (if j = row then l[l.length - 1]? else l[j]?) else none := by
  cases hl : l.getLast? with
  | none =>
    rw [List.getLast?_eq_none_iff] at hl
    subst hl
    simp at h
  | some x =>
    have hx : l[l.length - 1]? = some x := by rw [← List.getLast?_eq_getElem?]; exact hl
    simp only [swapRemove, hl, List.getElem?_dropLast, List.length_set, List.getElem?_set]
    by_cases hj : j + 1 < l.length
    · have h1 : j < l.length - 1 := by omega
      simp only [h1, hj, if_true]
      by_cases hjr : j = row
      · subst hjr
        simp [h, hx]
      · have : ¬ row = j := fun e => hjr e.symm
        simp [hjr, this]
    · have h1 : ¬ j < l.length - 1 := by omega
      simp [h1, hj]

/-! ## Entity index -/

namespace EntityVector

theorem get_eq_ok_iff (ev : EntityVector) (h : EntityID) (d : EntityData) :
    ev.get h = .ok d ↔ ∃ g, ev.slots[h.index]? = some { generation := g, data := some d } := by
  unfold get
  cases hs : ev.slots[h.index]? with
  | none => simp
  | some s =>
    obtain ⟨g, data⟩ := s
    cases data with
    | none => simp
    | some d0 =>
      simp only [Except.ok.injEq, Option.some.injEq, Slot.mk.injEq]
      constructor
      · rintro rfl; exact ⟨g, rfl, rfl⟩
      · rintro ⟨g2, -, h2⟩; exact h2

theorem get_congr (ev : EntityVector) {h f : EntityID} (hi : f.index = h.index) :
    ev.get f = ev.get h := by
  unfold get
  rw [hi]

theorem get_set (ev : EntityVector) (h : EntityID) (d0 d : EntityData)
    (hl : ev.get h = .ok d0) :
    ∃ ev2, ev.set h d = .ok ev2 ∧
      ∀ f, ev2.get f = if f.index = h.index then .ok d else ev.get f := by
  obtain ⟨g, hg⟩ := (get_eq_ok_iff ev h d0).1 hl
  refine ⟨{ slots := ev.slots.set h.index { generation := g, data := some d } }, ?_, ?_⟩
  · simp [set, hg]
  · intro f
    have hlt : h.index < ev.slots.length := by
      by_contra hcon
      rw [List.getElem?_eq_none (by omega)] at hg
      cases hg
    by_cases hf : f.index = h.index
    · simp [get, hf, List.getElem?_set, hlt]
    · have : ¬ h.index = f.index := fun e => hf e.symm
      simp [get, hf, List.getElem?_set, this]

theorem patchIndex_some (ev : EntityVector) (h : EntityID) (d0 : EntityData) (row : Nat)
    (hl : ev.get h = .ok d0) :
    ∃ ev2, ev.patchIndex h row = .ok ev2 ∧
      ∀ f, ev2.get f = if f.index = h.index then .ok { d0 with index := row } else ev.get f := by
  obtain ⟨ev2, h1, h2⟩ := get_set ev h d0 { d0 with index := row } hl
  exact ⟨ev2, by simp [patchIndex, hl, h1], h2⟩

end EntityVector

/-! ## Archetype operations -/

namespace World

theorem entities_pushComponents (a : Archetype) (comps : List (ComponentID × Value)) :
    (pushComponents a comps).entities = a.entities := by
  induction comps generalizing a with
  | nil => rfl
  | cons c rest ih => simp [pushComponents, List.foldl_cons] at ih ⊢; rw [ih]; rfl

theorem signature_pushComponents (a : Archetype) (comps : List (ComponentID × Value)) :
    (pushComponents a comps).signature = a.signature := by
  induction comps generalizing a with
  | nil => rfl
  | cons c rest ih => simp [pushComponents, List.foldl_cons] at ih ⊢; rw [ih]; rfl

theorem columns_pushComponents (a : Archetype) (comps : List (ComponentID × Value))
    (k : ComponentID) :
    (pushComponents a comps).columns k =
      a.columns k ++ (comps.filter (fun c => decide (c.1 = k))).map Prod.snd := by
  induction comps generalizing a with
  | nil => simp [pushComponents]
  | cons c rest ih =>
    simp only [pushComponents, List.foldl_cons] at ih ⊢
    rw [ih]
    by_cases hk : c.1 = k
    · subst hk
      simp [Archetype.pushComponent, List.filter_cons]
    · have : ¬ k = c.1 := fun e => hk e.symm
      simp [Archetype.pushComponent, List.filter_cons, hk, this]

theorem length_filter_fst_of_nodup (comps : List (ComponentID × Value)) (k : ComponentID)
    (hn : (comps.map Prod.fst).Nodup) :
    (comps.filter (fun c => decide (c.1 = k))).length = if k ∈ comps.map Prod.fst then 1 else 0 := by
  induction comps with
  | nil => simp
  | cons c rest ih =>
    simp only [List.map_cons, List.nodup_cons] at hn
    have ih2 := ih hn.2
    by_cases hk : c.1 = k
    · subst hk
      have hnot : c.1 ∉ rest.map Prod.fst := hn.1
      simp only [hnot, if_false] at ih2
      simp [List.filter_cons, ih2]
    · have : ¬ k = c.1 := fun e => hk e.symm
      simp only [List.filter_cons, hk, decide_False, Bool.false_eq_true, if_false, ih2,
        List.map_cons, List.mem_cons, this, false_or]

end World

/-! ## Archetype map -/

namespace ArcheMap

theorem mem_of_find? {m : ArcheMap} {s : Signature} {a : Archetype} (h : m.find? s = some a) :
    (s, a) ∈ m := by
  induction m with
  | nil => simp [find?] at h
  | cons hd tl ih =>
    obtain ⟨k, b⟩ := hd
    simp only [find?] at h
    by_cases hk : k = s
    · simp only [hk, if_true, Option.some.injEq] at h
      simp [hk, h]
    · simp only [hk, if_false] at h
      exact List.mem_cons_of_mem _ (ih h)

theorem find?_of_mem {m : ArcheMap} {s : Signature} {a : Archetype} (hn : m.keys.Nodup)
    (h : (s, a) ∈ m) : m.find? s = some a := by
  induction m with
  | nil => simp at h
  | cons hd tl ih =>
    obtain ⟨k, b⟩ := hd
    simp only [keys, List.map_cons, List.nodup_cons, List.mem_map, not_exists, not_and] at hn
    simp only [List.mem_cons, Prod.mk.injEq] at h
    simp only [find?]
    rcases h with ⟨h1, h2⟩ | h
    · simp [h1, h2]
    · have : k ≠ s := fun e => hn.1 (s, a) h e.symm
      simp only [this, if_false]
      exact ih hn.2 h

theorem find?_eq_none_iff {m : ArcheMap} {s : Signature} : m.find? s = none ↔ s ∉ m.keys := by
  induction m with
  | nil => simp [find?, keys]
  | cons hd tl ih =>
    obtain ⟨k, b⟩ := hd
    simp only [find?, keys, List.map_cons, List.mem_cons, not_or]
    by_cases hk : k = s
    · simp [hk]
    · have : ¬ s = k := fun e => hk e.symm
      simp only [hk, if_false, this, not_false_eq_true, true_and]
      exact ih

theorem find?_assign_self (m : ArcheMap) (s : Signature) (a : Archetype) :
    (m.assign s a).find? s = some a := by
  induction m with
  | nil => simp [assign, find?]
  | cons hd tl ih =>
    obtain ⟨k, b⟩ := hd
    by_cases hk : k = s
    · simp [assign, find?, hk]
    · simp [assign, find?, hk, ih]

theorem find?_assign_ne (m : ArcheMap) {s t : Signature} (a : Archetype) (h : t ≠ s) :
    (m.assign s a).find? t = m.find? t := by
  induction m with
  | nil =>
    have : ¬ s = t := fun e => h e.symm
    simp [assign, find?, this]
  | cons hd tl ih =>
    obtain ⟨k, b⟩ := hd
    by_cases hk : k = s
    · have : ¬ s = t := fun e => h e.symm
      simp [assign, find?, hk, this]
    · by_cases hkt : k = t
      · subst hkt
        simp [assign, find?, hk]
      · simp [assign, find?, hk, hkt, ih]

theorem find?_assign_twice (m : ArcheMap) (q : Signature) (a b : Archetype) (s : Signature) :
    ((m.assign q a).assign q b).find? s = if s = q then some b else m.find? s := by
  by_cases hs : s = q
  · subst hs; simp [find?_assign_self]
  · simp [find?_assign_ne _ _ hs, hs]

theorem find?_assign_pair (m : ArcheMap) {p q : Signature} (a b : Archetype) (hpq : p ≠ q)
    (s : Signature) :
    ((m.assign q a).assign p b).find? s =
      if s = q then some a else if s = p then some b else m.find? s := by
  by_cases hsq : s = q
  · subst hsq
    simp [find?_assign_ne _ _ (fun x => hpq x.symm), find?_assign_self]
  · by_cases hsp : s = p
    · subst hsp; simp [find?_assign_self, hsq]
    · simp [find?_assign_ne _ _ hsq, find?_assign_ne _ _ hsp, hsq, hsp]

theorem find?_assign_triple (m : ArcheMap) {p q : Signature} (a b c : Archetype) (hpq : p ≠ q)
    (s : Signature) :
    (((m.assign q a).assign p b).assign q c).find? s =
      if s = q then some c else if s = p then some b else m.find? s := by
  by_cases hsq : s = q
  · subst hsq; simp [find?_assign_self]
  · rw [find?_assign_ne _ _ hsq, find?_assign_pair m a b hpq s]
    simp [hsq]

theorem keys_assign_of_mem (m : ArcheMap) {s : Signature} (a : Archetype) (h : s ∈ m.keys) :
    (m.assign s a).keys = m.keys := by
  induction m with
  | nil => simp [keys] at h
  | cons hd tl ih =>
    obtain ⟨k, b⟩ := hd
    by_cases hk : k = s
    · simp [assign, keys, hk]
    · have hs : s ∈ keys tl := by
        simp only [keys, List.map_cons, List.mem_cons] at h
        rcases h with h | h
        · exact absurd h.symm hk
        · exact h
      have := ih hs
      simp only [keys] at this
      simp [assign, keys, hk, this]

theorem keys_assign_of_not_mem (m : ArcheMap) {s : Signature} (a : Archetype) (h : s ∉ m.keys) :
    (m.assign s a).keys = m.keys ++ [s] := by
  induction m with
  | nil => simp [assign, keys]
  | cons hd tl ih =>
    obtain ⟨k, b⟩ := hd
    simp only [keys, List.map_cons, List.mem_cons, not_or] at h
    have hk : ¬ k = s := fun e => h.1 e.symm
    have := ih h.2
    simp only [keys] at this
    simp [assign, keys, hk, this]

theorem nodup_keys_assign (m : ArcheMap) (s : Signature) (a : Archetype) (h : m.keys.Nodup) :
    (m.assign s a).keys.Nodup := by
  by_cases hs : s ∈ m.keys
  · rw [keys_assign_of_mem m a hs]; exact h
  · rw [keys_assign_of_not_mem m a hs]
    rw [List.nodup_append]
    refine ⟨h, by simp, ?_⟩
    intro x hx hx2
    simp only [List.mem_singleton] at hx2
    subst hx2
    exact hs hx

end ArcheMap

/-! ## Views -/

namespace View

theorem includeLoop_eq_excludeLoop (matchesFn : Signature → Signature → Bool) (w : World)
    (signature : Signature) (l : List Signature) :
    includeLoop matchesFn w signature l = excludeLoop matchesFn w signature l := by
  induction l with
  | nil => rfl
  | cons p rest ih => simp only [includeLoop, excludeLoop, ih]

theorem exclude_ne_ok (matchesFn : Signature → Signature → Bool) (w : World) (v : View)
    (xs : List ComponentID) (r : View) : exclude matchesFn w v xs ≠ .ok r := by
  unfold exclude
  cases excludeBody matchesFn w v xs with
  | ok x => intro h; cases h
  | error x => intro h; cases h

theorem begin_eq_endIterator (v : View) : v.begin.eq v.endIterator = true := by
  simp [begin, endIterator, ViewIterator.new, ViewIterator.eq]

theorem collect_eq_nil (w : World) (v : View) (fuel : Nat) : collect w v fuel = .ok [] := by
  cases fuel <;> simp [collect, collectFrom, ViewIterator.ne, begin_eq_endIterator]

theorem mem_new_iff (w : World) (cs : List ComponentID) (hk : w.arches.keys.Nodup)
    (p : Signature) :
    p ∈ (View.new w cs).archeVector ↔
      ∃ a, w.arches.find? p = some a ∧ a.signature.includes (Signature.build cs) = true ∧
        a.empty = false := by
  simp only [View.new, List.mem_map, List.mem_filter, Bool.and_eq_true, Bool.not_eq_true',
    Prod.exists, exists_and_right, exists_eq_right]
  constructor
  · rintro ⟨a, hm, h1, h2⟩
    exact ⟨a, ArcheMap.find?_of_mem hk hm, h1, h2⟩
  · rintro ⟨a, hf, h1, h2⟩
    exact ⟨a, ArcheMap.mem_of_find? hf, h1, h2⟩

theorem new_nodup (w : World) (cs : List ComponentID) (hk : w.arches.keys.Nodup) :
    (View.new w cs).archeVector.Nodup := by
  simp only [View.new]
  have hsub : List.Sublist ((w.arches.filter (fun pair =>
        pair.2.signature.includes (Signature.build cs) && !pair.2.empty)).map Prod.fst)
      (w.arches.map Prod.fst) := List.Sublist.map _ (List.filter_sublist _)
  exact hsub.nodup hk

end View

/-- C1, the behaviour of the code: in the scenario of §8 (`Position` on `e1`, `Position` and
`Velocity` on `e2`, `Velocity` on `e3`) `View<Position>` matches two archetypes of one row each,
so two tuples are due, and the loop from `begin()` until the iterator equals `end()` yields no
tuple, whatever the fuel; the same holds for every view of every world. -/
theorem view_position_yields_no_tuple :
    (View.new Scenario.positionVelocity [Scenario.position]).archeVector.map
        (fun p => (Scenario.positionVelocity.arches.find? p).map Archetype.size)
      = [some 1, some 1] ∧
    (∀ fuel, View.collect Scenario.positionVelocity
        (View.new Scenario.positionVelocity [Scenario.position]) fuel = .ok []) ∧
    (∀ (w : World) (v : View) (fuel : Nat), View.collect w v fuel = .ok []) :=
  ⟨by decide, fun fuel => View.collect_eq_nil _ _ fuel, View.collect_eq_nil⟩

/-- C2, the behaviour of the code: iterator equality compares the outer cursors only, and for
every view `end()` is the iterator with outer cursor 0 and row cursor equal to the number of
matched archetypes, so `begin() == end()` holds for every view; in the scenario of §8
`View<Position>` matched two archetypes and `begin() == end()`. -/
theorem view_end_outer_cursor_is_zero :
    (∀ a b : ViewIterator, a.eq b = true ↔ a.cacheIndex = b.cacheIndex) ∧
    (∀ v : View, v.endIterator.cacheIndex = 0 ∧ v.endIterator.index = v.archeVector.length ∧
      v.begin.eq v.endIterator = true) ∧
    (View.new Scenario.positionVelocity [Scenario.position]).archeVector.length = 2 ∧
    (View.new Scenario.positionVelocity [Scenario.position]).begin.eq
      (View.new Scenario.positionVelocity [Scenario.position]).endIterator = true :=
  ⟨fun a b => by simp [ViewIterator.eq],
   fun v => ⟨rfl, rfl, View.begin_eq_endIterator v⟩, by decide, by decide⟩

/-- C3: for a world whose map has distinct keys, `View<Cs...>` retains the pointer of an archetype
iff the map holds that archetype, its signature includes `build<Cs...>()` (every bit of `Cs` is
set) and it is not empty; no pointer is retained twice; and a key that is not in the map at
construction is not in the view, whatever archetype is stored under it afterwards. -/
theorem view_new_retains (w : World) (cs : List ComponentID) (hk : w.arches.keys.Nodup) :
    (∀ p, p ∈ (View.new w cs).archeVector ↔
      ∃ a, w.arches.find? p = some a ∧ a.signature.includes (Signature.build cs) = true ∧
        (∀ c ∈ cs, a.signature.test c = true) ∧ a.entities ≠ []) ∧
    (View.new w cs).archeVector.Nodup ∧
    (∀ s a, w.arches.find? s = none →
      s ∉ (View.new w cs).archeVector ∧ (w.arches.assign s a).find? s = some a) := by
  refine ⟨fun p => ?_, View.new_nodup w cs hk, fun s a hs => ⟨?_, ?_⟩⟩
  · rw [View.mem_new_iff w cs hk]
    constructor
    · rintro ⟨a, hf, hi, he⟩
      refine ⟨a, hf, hi, fun c hc => ?_, ?_⟩
      · exact (Signature.includes_iff _ _).1 hi c (by simp [Signature.test_build, hc])
      · intro h; simp [Archetype.empty, h] at he
    · rintro ⟨a, hf, hi, -, he⟩
      refine ⟨a, hf, hi, ?_⟩
      cases hl : a.entities with
      | nil => exact absurd hl he
      | cons x xs => simp [Archetype.empty, hl]
  · intro hmem
    obtain ⟨a2, hf, -⟩ := (View.mem_new_iff w cs hk s).1 hmem
    rw [hs] at hf
    cases hf
  · exact ArcheMap.find?_assign_self _ _ _

/-- Witness of C3 in the scenario of §8. -/
theorem view_new_retains_witness :
    Scenario.positionVelocity.arches.keys.Nodup ∧
    ((∀ p, p ∈ (View.new Scenario.positionVelocity [Scenario.position]).archeVector ↔
      ∃ a, Scenario.positionVelocity.arches.find? p = some a ∧
        a.signature.includes (Signature.build [Scenario.position]) = true ∧
        (∀ c ∈ [Scenario.position], a.signature.test c = true) ∧ a.entities ≠ []) ∧
    (View.new Scenario.positionVelocity [Scenario.position]).archeVector.Nodup ∧
    (∀ s a, Scenario.positionVelocity.arches.find? s = none →
      s ∉ (View.new Scenario.positionVelocity [Scenario.position]).archeVector ∧
        (Scenario.positionVelocity.arches.assign s a).find? s = some a)) :=
  ⟨by decide, view_new_retains Scenario.positionVelocity [Scenario.position] (by decide)⟩

/-- C4, the behaviour of the code: `exclude<Xs...>()` is declared to return a `View` and its
body ends without a `return` statement, so no call returns a view, whatever
`Signature::matches` computes.  On `View<A,B>` over the archetypes `{A,B}` and `{A,B,C}` the
body of `exclude<C>()` narrows the member `archeVector` to `{A,B}`, with `matches` read as the
overlap test, and the call then reaches the end of the function, as it does with `matches` read
as the superset test and for `View<Position>().exclude<Velocity>()` in the scenario of §8. -/
theorem view_exclude_returns_no_view :
    (∀ (matchesFn : Signature → Signature → Bool) (w : World) (v : View)
        (xs : List ComponentID) (r : View), View.exclude matchesFn w v xs ≠ .ok r) ∧
    View.excludeBody Signature.overlaps Scenario.abAndAbc
        (View.new Scenario.abAndAbc [Scenario.position, Scenario.velocity]) [Scenario.compC]
      = .ok { components := [Scenario.position, Scenario.velocity],
              archeVector := [Signature.build [Scenario.position, Scenario.velocity]] } ∧
    View.exclude Signature.overlaps Scenario.abAndAbc
        (View.new Scenario.abAndAbc [Scenario.position, Scenario.velocity]) [Scenario.compC]
      = .error .missingReturn ∧
    View.exclude Signature.includes Scenario.abAndAbc
        (View.new Scenario.abAndAbc [Scenario.position, Scenario.velocity]) [Scenario.compC]
      = .error .missingReturn ∧
    View.exclude Signature.overlaps Scenario.positionVelocity
        (View.new Scenario.positionVelocity [Scenario.position]) [Scenario.velocity]
      = .error .missingReturn :=
  ⟨View.exclude_ne_ok, by decide, by decide, by decide, by decide⟩

/-- C5, the behaviour of the code: the body of `include` runs the test of `exclude`, so both
narrow the view alike on every input, whatever `Signature::matches` computes, and `include`
ends without a `return` statement as `exclude` does; on `View<A,B>` over the archetypes `{A,B}`
and `{A,B,C}` the body of `include<C>()` keeps `{A,B}` and drops `{A,B,C}`, with `matches` read
as the overlap test and with `matches` read as the superset test. -/
theorem view_include_runs_exclusion_test :
    (View.new Scenario.abAndAbc [Scenario.position, Scenario.velocity]).archeVector
      = [Signature.build [Scenario.position, Scenario.velocity],
         Signature.build [Scenario.position, Scenario.velocity, Scenario.compC]] ∧
    View.includeBody Signature.overlaps Scenario.abAndAbc
        (View.new Scenario.abAndAbc [Scenario.position, Scenario.velocity]) [Scenario.compC]
      = .ok { components := [Scenario.position, Scenario.velocity],
              archeVector := [Signature.build [Scenario.position, Scenario.velocity]] } ∧
    View.includeBody Signature.includes Scenario.abAndAbc
        (View.new Scenario.abAndAbc [Scenario.position, Scenario.velocity]) [Scenario.compC]
      = .ok { components := [Scenario.position, Scenario.velocity],
              archeVector := [Signature.build [Scenario.position, Scenario.velocity]] } ∧
    (∀ (matchesFn : Signature → Signature → Bool) (w : World) (v : View)
        (xs : List ComponentID),
      View.includeBody matchesFn w v xs = View.excludeBody matchesFn w v xs) ∧
    (∀ (matchesFn : Signature → Signature → Bool) (w : World) (v : View)
        (xs : List ComponentID),
      View.includeView matchesFn w v xs = View.exclude matchesFn w v xs) :=
  ⟨by decide, by decide, by decide,
   fun m w v xs => by
    simp only [View.includeBody, View.excludeBody, View.includeLoop_eq_excludeLoop],
   fun m w v xs => by
    simp only [View.includeView, View.exclude, View.includeBody, View.excludeBody,
      View.includeLoop_eq_excludeLoop]⟩

/-- C10, the behaviour of the code: on every live entity whose record has the null archetype
`destroyEntity` dereferences that null pointer.  Straight after `createEntity()`, and after
detaching its only component, the record of `e1` has the null archetype, and `destroyEntity(e1)`
faults: no world results, the handle is not retired and `size()` is not decreased. -/
theorem destroyEntity_unattached_dereferences_null :
    (∀ (w : World) (id : EntityID) (i : Nat),
      w.entities.get id = .ok { index := i, arche := none } →
      w.destroyEntity id = .error .nullArchetype) ∧
    Scenario.created1.entities.get Scenario.e1 = .ok { index := 0, arche := none } ∧
    Scenario.created1.destroyEntity Scenario.e1 = .error .nullArchetype ∧
    Scenario.onePositionDetached.entities.get Scenario.e1 = .ok { index := 0, arche := none } ∧
    Scenario.onePositionDetached.destroyEntity Scenario.e1 = .error .nullArchetype :=
  ⟨fun w id i h => by simp [World.destroyEntity, h, bind, Except.bind],
   by decide, rfl, by decide, rfl⟩

namespace Archetype

theorem carryEntity_eq (dst : Archetype) (row : Nat) (h : EntityID) (src : Archetype)
    (hr : row < src.entities.length) :
    dst.carryEntity row h src = .ok (dst.carried row h src, dst.entities.length) := by
  simp [carryEntity, carried, hr]

theorem erase_eq (a : Archetype) (row : Nat) (last : EntityID) (hr : row < a.entities.length)
    (hl : a.entities.getLast? = some last) :
    a.erase row = .ok (a.erased row, last) := by
  simp [erase, erased, hr, hl]

theorem getLast?_entities (a : Archetype) (h : 0 < a.entities.length) :
    ∃ last, a.entities.getLast? = some last ∧
      a.entities[a.entities.length - 1]? = some last := by
  refine ⟨a.entities[a.entities.length - 1], ?_, List.getElem?_eq_getElem (by omega)⟩
  rw [List.getLast?_eq_getElem?]
  exact List.getElem?_eq_getElem (by omega)

theorem getElem?_entities_erased (a : Archetype) (row j : Nat) (hr : row < a.entities.length) :
    (a.erased row).entities[j]? =
      if j + 1 < a.entities.length then
        (if j = row then a.entities[a.entities.length - 1]? else a.entities[j]?)
      else none := by
  simp only [erased, getElem?_swapRemove _ _ _ hr]

theorem length_entities_erased (a : Archetype) (row : Nat) (hr : row < a.entities.length) :
    (a.erased row).entities.length = a.entities.length - 1 := by
  simp only [erased, length_swapRemove _ _ hr]

theorem getComponent_eq_of_getElem? (a b : Archetype) (c : ComponentID) (i j : Nat)
    (hs : a.signature = b.signature)
    (hc : a.signature.test c = true → (a.columns c)[i]? = (b.columns c)[j]?) :
    a.getComponent c i = b.getComponent c j := by
  unfold getComponent
  rw [← hs]
  cases ht : a.signature.test c
  · simp
  · simp [hc ht]

end Archetype

namespace World

theorem WellFormed.index_ne {w : World} {h f : EntityID} {d1 d2 : EntityData}
    (h1 : w.entities.get h = .ok d1) (h2 : w.entities.get f = .ok d2) (hne : d1 ≠ d2) :
    h.index ≠ f.index := by
  intro hi
  rw [EntityVector.get_congr _ hi, h2] at h1
  cases h1
  exact hne rfl

/-- Facts about the row of an attached entity in a well-formed world. -/
theorem WellFormed.row_of_record {w : World} (hwf : w.WellFormed) {e : EntityID}
    {d : EntityData} {p : Signature} {src : Archetype} (hl : w.entities.get e = .ok d)
    (ha : d.arche = some p) (hs : w.arches.find? p = some src) :
    d.index < src.entities.length ∧ ∃ h2, src.entities[d.index]? = some h2 ∧ h2.index = e.index := by
  obtain ⟨a, hfa, h2, hh2, hi⟩ := hwf.recordsPlaced e d p hl ha
  rw [hs] at hfa
  cases hfa
  refine ⟨?_, h2, hh2, hi⟩
  by_contra hcon
  rw [List.getElem?_eq_none (by omega)] at hh2
  cases hh2

end World

namespace World

/-! ## Reading `has` and `get` off a record -/

theorem has_of_error {w : World} {f : EntityID} {x : Fault} (h : w.entities.get f = .error x)
    (t : ComponentID) : w.has f t = .error x := by
  simp [has, h, bind, Except.bind]

theorem get_of_error {w : World} {f : EntityID} {x : Fault} (h : w.entities.get f = .error x)
    (t : ComponentID) : w.get f t = .error x := by
  simp [get, h, bind, Except.bind]

theorem has_of_unattached {w : World} {f : EntityID} {d : EntityData}
    (h : w.entities.get f = .ok d) (ha : d.arche = none) (t : ComponentID) :
    w.has f t = .ok false := by
  simp [has, h, ha, bind, Except.bind, pure, Except.pure]

theorem get_of_unattached {w : World} {f : EntityID} {d : EntityData}
    (h : w.entities.get f = .ok d) (ha : d.arche = none) (t : ComponentID) :
    w.get f t = .error .nullArchetype := by
  simp [get, h, ha, bind, Except.bind]

theorem has_of_attached {w : World} {f : EntityID} {d : EntityData} {s : Signature}
    {a : Archetype} (h : w.entities.get f = .ok d) (ha : d.arche = some s)
    (hf : w.arches.find? s = some a) (t : ComponentID) :
    w.has f t = .ok (a.signature.test t) := by
  simp [has, h, ha, hf, ArcheMap.deref, bind, Except.bind, pure, Except.pure]

theorem get_of_attached {w : World} {f : EntityID} {d : EntityData} {s : Signature}
    {a : Archetype} (h : w.entities.get f = .ok d) (ha : d.arche = some s)
    (hf : w.arches.find? s = some a) (t : ComponentID) :
    w.get f t = a.getComponent t d.index := by
  simp [get, h, ha, hf, ArcheMap.deref, bind, Except.bind]

theorem has_congr {w w2 : World} {f : EntityID} (hg : w2.entities.get f = w.entities.get f)
    (hfind : ∀ d s, w.entities.get f = .ok d → d.arche = some s →
      ∃ a a2, w.arches.find? s = some a ∧ w2.arches.find? s = some a2 ∧
        a2.signature = a.signature)
    (t : ComponentID) : w2.has f t = w.has f t := by
  cases hw : w.entities.get f with
  | error x => rw [has_of_error hw, has_of_error (hg.trans hw)]
  | ok d =>
    cases ha : d.arche with
    | none => rw [has_of_unattached hw ha, has_of_unattached (hg.trans hw) ha]
    | some s =>
      obtain ⟨a, a2, h1, h2, h3⟩ := hfind d s hw ha
      rw [has_of_attached hw ha h1, has_of_attached (hg.trans hw) ha h2, h3]

theorem get_eq_of_columns {w w2 : World} {f : EntityID} (hg : w2.entities.get f = w.entities.get f)
    (hfind : ∀ d s, w.entities.get f = .ok d → d.arche = some s →
      ∃ a a2, w.arches.find? s = some a ∧ w2.arches.find? s = some a2 ∧
        a2.signature = a.signature ∧
        ∀ c, a.signature.test c = true → (a2.columns c)[d.index]? = (a.columns c)[d.index]?)
    (t : ComponentID) : w2.get f t = w.get f t := by
  cases hw : w.entities.get f with
  | error x => rw [get_of_error hw, get_of_error (hg.trans hw)]
  | ok d =>
    cases ha : d.arche with
    | none => rw [get_of_unattached hw ha, get_of_unattached (hg.trans hw) ha]
    | some s =>
      obtain ⟨a, a2, h1, h2, h3, h4⟩ := hfind d s hw ha
      rw [get_of_attached hw ha h1, get_of_attached (hg.trans hw) ha h2]
      exact Archetype.getComponent_eq_of_getElem? a2 a t d.index d.index h3
        (fun ht => h4 t (h3 ▸ ht))

end World

namespace World

/-! ## Erasing the row of an entity -/

namespace Removed

variable {w w2 : World} {e : EntityID} {d : EntityData} {p : Signature} {src : Archetype}

theorem moved_spec (hwf : w.WellFormed) (hr : Removed w w2 e d p src) {m : EntityID}
    (hm : (src.erased d.index).entities[d.index]? = some m) :
    d.index + 1 < src.entities.length ∧ src.entities[src.entities.length - 1]? = some m ∧
      w.entities.get m = .ok { index := src.entities.length - 1, arche := some p } ∧
      m.index ≠ e.index := by
  obtain ⟨hlt, -⟩ := hwf.row_of_record hr.live hr.arche hr.findSrc
  rw [Archetype.getElem?_entities_erased _ _ _ hlt] at hm
  by_cases h1 : d.index + 1 < src.entities.length
  · simp only [h1, if_true] at hm
    have hrec := hwf.rowsRecorded p src hr.findSrc _ _ hm
    refine ⟨h1, hm, hrec, ?_⟩
    apply WellFormed.index_ne hrec hr.live
    intro hd
    have : d.index = src.entities.length - 1 := by rw [← hd]
    omega
  · simp [h1] at hm

theorem get_erased_self (hr : Removed w w2 e d p src) {f : EntityID} (hf : f.index = e.index) :
    w2.entities.get f = .ok { index := 0, arche := none } := by
  rw [hr.entities f]; simp [hf]

theorem get_moved (hwf : w.WellFormed) (hr : Removed w w2 e d p src) {m f : EntityID}
    (hm : (src.erased d.index).entities[d.index]? = some m) (hf : f.index = m.index) :
    w2.entities.get f = .ok { index := d.index, arche := some p } := by
  have hne : m.index ≠ e.index := (moved_spec hwf hr hm).2.2.2
  rw [hr.entities f]; simp [hne, hm, hf]

theorem get_erased_other (hr : Removed w w2 e d p src) {f : EntityID} (hf : f.index ≠ e.index)
    (hm : ∀ m, (src.erased d.index).entities[d.index]? = some m → f.index ≠ m.index) :
    w2.entities.get f = w.entities.get f := by
  rw [hr.entities f]
  simp only [hf, if_false]
  cases hmv : (src.erased d.index).entities[d.index]? with
  | none => rfl
  | some m => simp [hm m hmv]

/-- A handle stored in a row of `p` other than the erased row and the last row keeps its
record. -/
theorem get_erased_of_row (hwf : w.WellFormed) (hr : Removed w w2 e d p src) {j : Nat} {h : EntityID}
    (hj : src.entities[j]? = some h) (hjr : j ≠ d.index) (hjl : j + 1 < src.entities.length) :
    w2.entities.get h = .ok { index := j, arche := some p } := by
  have hrec := hwf.rowsRecorded p src hr.findSrc _ _ hj
  rw [get_erased_other hr, hrec]
  · apply WellFormed.index_ne hrec hr.live
    intro hd
    exact hjr (by rw [← hd])
  · intro m hm
    obtain ⟨-, -, hmrec, -⟩ := moved_spec hwf hr hm
    apply WellFormed.index_ne hrec hmrec
    intro hd
    have : j = src.entities.length - 1 := by
      have := congrArg EntityData.index hd
      simpa using this
    omega

/-- A handle stored in another archetype keeps its record. -/
theorem get_of_other_arche (hwf : w.WellFormed) (hr : Removed w w2 e d p src) {s : Signature}
    {a : Archetype} (hs : s ≠ p) (ha : w.arches.find? s = some a) {j : Nat} {h : EntityID}
    (hj : a.entities[j]? = some h) :
    w2.entities.get h = .ok { index := j, arche := some s } := by
  have hrec := hwf.rowsRecorded s a ha _ _ hj
  rw [get_erased_other hr, hrec]
  · apply WellFormed.index_ne hrec hr.live
    intro hd
    have := congrArg EntityData.arche hd
    rw [hr.arche] at this
    simp only [Option.some.injEq] at this
    exact hs this
  · intro m hm
    obtain ⟨-, -, hmrec, -⟩ := moved_spec hwf hr hm
    apply WellFormed.index_ne hrec hmrec
    intro hd
    have := congrArg EntityData.arche hd
    simp only [Option.some.injEq] at this
    exact hs this

/-- The row of another entity of `p` is neither the erased row nor the row that fills it. -/
theorem row_other (hwf : w.WellFormed) (hr : Removed w w2 e d p src) {f : EntityID}
    {d2 : EntityData} (hf : f.index ≠ e.index)
    (hm : ∀ m, (src.erased d.index).entities[d.index]? = some m → f.index ≠ m.index)
    (hg : w.entities.get f = .ok d2) (ha : d2.arche = some p) :
    d2.index ≠ d.index ∧ d2.index + 1 < src.entities.length ∧
      ∃ h2, src.entities[d2.index]? = some h2 ∧ h2.index = f.index := by
  obtain ⟨hlt, h0, hh0, hi0⟩ := hwf.row_of_record hr.live hr.arche hr.findSrc
  obtain ⟨hlt2, h2, hh2, hi2⟩ := hwf.row_of_record hg ha hr.findSrc
  have hne : d2.index ≠ d.index := by
    intro heq
    rw [heq, hh0] at hh2
    cases hh2
    exact hf (hi2.symm.trans hi0)
  refine ⟨hne, ?_, h2, hh2, hi2⟩
  by_contra hcon
  have hlast : d2.index = src.entities.length - 1 := by omega
  have hmv : (src.erased d.index).entities[d.index]? = some h2 := by
    rw [Archetype.getElem?_entities_erased _ _ _ hlt]
    have : d.index + 1 < src.entities.length := by omega
    simp [this, ← hlast, hh2]
  exact hm h2 hmv hi2.symm

theorem erase_wellFormed (hwf : w.WellFormed) (hr : Removed w w2 e d p src) : w2.WellFormed := by
  obtain ⟨hlt, h0, hh0, hi0⟩ := hwf.row_of_record hr.live hr.arche hr.findSrc
  have hsig : src.signature = p := hwf.signatureKey _ _ hr.findSrc
  refine ⟨hr.keys, ?_, ?_, ?_, ?_⟩
  · intro s a hf
    rw [hr.arches] at hf
    by_cases hs : s = p
    · simp only [hs, if_true, Option.some.injEq] at hf
      rw [← hf, hs]; exact hsig
    · simp only [hs, if_false] at hf
      exact hwf.signatureKey s a hf
  · intro s a hf c hc
    rw [hr.arches] at hf
    by_cases hs : s = p
    · simp only [hs, if_true, Option.some.injEq] at hf
      subst hf
      rw [hs] at hc
      have hal := hwf.aligned p src hr.findSrc c hc
      simp only [Archetype.erased, hsig, hc, if_true]
      rw [length_swapRemove _ _ (by omega), length_swapRemove _ _ hlt, hal]
    · simp only [hs, if_false] at hf
      exact hwf.aligned s a hf c hc
  · intro s a hf row h hrow
    rw [hr.arches] at hf
    by_cases hs : s = p
    · simp only [hs, if_true, Option.some.injEq] at hf
      subst hf
      rw [hs]
      have hrow2 := hrow
      rw [Archetype.getElem?_entities_erased _ _ _ hlt] at hrow2
      by_cases h1 : row + 1 < src.entities.length
      · simp only [h1, if_true] at hrow2
        by_cases h2 : row = d.index
        · subst h2
          exact get_moved hwf hr hrow rfl
        · simp only [h2, if_false] at hrow2
          exact get_erased_of_row hwf hr hrow2 h2 h1
      · simp [h1] at hrow2
    · simp only [hs, if_false] at hf
      exact get_of_other_arche hwf hr hs hf hrow
  · intro f d2 s hg ha
    by_cases hfe : f.index = e.index
    · rw [get_erased_self hr hfe] at hg
      cases hg
      cases ha
    · by_cases hmv : ∃ m, (src.erased d.index).entities[d.index]? = some m ∧ f.index = m.index
      · obtain ⟨m, hm, hfm⟩ := hmv
        rw [get_moved hwf hr hm hfm] at hg
        cases hg
        simp only [Option.some.injEq] at ha
        subst ha
        refine ⟨src.erased d.index, ?_, m, hm, hfm.symm⟩
        rw [hr.arches]; simp
      · have hm : ∀ m, (src.erased d.index).entities[d.index]? = some m → f.index ≠ m.index :=
          fun m h1 h2 => hmv ⟨m, h1, h2⟩
        rw [get_erased_other hr hfe hm] at hg
        by_cases hs : s = p
        · subst hs
          obtain ⟨h1, h2, h3, hh3, hi3⟩ := row_other hwf hr hfe hm hg ha
          refine ⟨src.erased d.index, ?_, h3, ?_, hi3⟩
          · rw [hr.arches]; simp
          · rw [Archetype.getElem?_entities_erased _ _ _ hlt]
            simp [h1, h2, hh3]
        · obtain ⟨a, hfa, h3, hh3, hi3⟩ := hwf.recordsPlaced f d2 s hg ha
          refine ⟨a, ?_, h3, hh3, hi3⟩
          rw [hr.arches]; simp [hs, hfa]

end Removed

end World

namespace World

namespace Removed

variable {w w2 : World} {e : EntityID} {d : EntityData} {p : Signature} {src : Archetype}

theorem columns_erased (hwf : w.WellFormed) (hr : Removed w w2 e d p src) (c : ComponentID)
    (hc : src.signature.test c = true) (j : Nat) :
    ((src.erased d.index).columns c)[j]? =
      if j + 1 < src.entities.length then
        (if j = d.index then (src.columns c)[src.entities.length - 1]? else (src.columns c)[j]?)
      else none := by
  obtain ⟨hlt, -⟩ := hwf.row_of_record hr.live hr.arche hr.findSrc
  have hsig : src.signature = p := hwf.signatureKey _ _ hr.findSrc
  have hal := hwf.aligned p src hr.findSrc c (hsig ▸ hc)
  simp only [Archetype.erased, hc, if_true]
  rw [getElem?_swapRemove _ _ _ (by omega), hal]

/-- Frame of an erase: every other entity keeps `has` and `get`. -/
theorem erase_frame (hwf : w.WellFormed) (hr : Removed w w2 e d p src) {f : EntityID}
    (hfe : f.index ≠ e.index) (t : ComponentID) :
    w2.has f t = w.has f t ∧ w2.get f t = w.get f t := by
  obtain ⟨hlt, h0, hh0, hi0⟩ := hwf.row_of_record hr.live hr.arche hr.findSrc
  have hfind2 : w2.arches.find? p = some (src.erased d.index) := by rw [hr.arches]; simp
  by_cases hmv : ∃ m, (src.erased d.index).entities[d.index]? = some m ∧ f.index = m.index
  · obtain ⟨m, hm, hfm⟩ := hmv
    obtain ⟨h1, h2, hmrec, -⟩ := moved_spec hwf hr hm
    have hg2 := get_moved hwf hr hm hfm
    have hg : w.entities.get f = .ok { index := src.entities.length - 1, arche := some p } := by
      rw [EntityVector.get_congr _ hfm]; exact hmrec
    constructor
    · rw [has_of_attached hg2 rfl hfind2, has_of_attached hg rfl hr.findSrc]
      rfl
    · rw [get_of_attached hg2 rfl hfind2, get_of_attached hg rfl hr.findSrc]
      refine Archetype.getComponent_eq_of_getElem? (src.erased d.index) src _ _ _ rfl ?_
      intro ht
      rw [columns_erased hwf hr t ht]
      simp [h1]
  · have hm : ∀ m, (src.erased d.index).entities[d.index]? = some m → f.index ≠ m.index :=
      fun m h1 h2 => hmv ⟨m, h1, h2⟩
    have hg := get_erased_other hr hfe hm
    have key : ∀ d2 s, w.entities.get f = .ok d2 → d2.arche = some s →
        ∃ a a2, w.arches.find? s = some a ∧ w2.arches.find? s = some a2 ∧
          a2.signature = a.signature ∧
          ∀ c, a.signature.test c = true → (a2.columns c)[d2.index]? = (a.columns c)[d2.index]? := by
      intro d2 s hd2 ha
      by_cases hs : s = p
      · subst hs
        obtain ⟨h1, h2, -⟩ := row_other hwf hr hfe hm hd2 ha
        refine ⟨src, src.erased d.index, hr.findSrc, hfind2, rfl, fun c hc => ?_⟩
        rw [columns_erased hwf hr c hc]
        simp [h1, h2]
      · obtain ⟨a, hfa, -⟩ := hwf.recordsPlaced f d2 s hd2 ha
        refine ⟨a, a, hfa, ?_, rfl, fun c _ => rfl⟩
        rw [hr.arches]; simp [hs, hfa]
    constructor
    · apply has_congr hg
      intro d2 s hd2 ha
      obtain ⟨a, a2, h1, h2, h3, -⟩ := key d2 s hd2 ha
      exact ⟨a, a2, h1, h2, h3⟩
    · exact get_eq_of_columns hg key t

end Removed

/-! ## Appending the row of an Unattached entity -/

namespace Placed

variable {w w2 : World} {e : EntityID} {q : Signature} {dst dstF : Archetype}

theorem get_placed_self (hr : Placed w w2 e q dst dstF) {f : EntityID} (hf : f.index = e.index) :
    w2.entities.get f = .ok { index := dst.entities.length, arche := some q } := by
  rw [hr.entities f]; simp [hf]

theorem get_placed_other (hr : Placed w w2 e q dst dstF) {f : EntityID} (hf : f.index ≠ e.index) :
    w2.entities.get f = w.entities.get f := by
  rw [hr.entities f]; simp [hf]

theorem get_placed_of_row (hwf : w.WellFormed) (hr : Placed w w2 e q dst dstF) {s : Signature}
    {a : Archetype} (ha : w.arches.find? s = some a) {j : Nat} {h : EntityID}
    (hj : a.entities[j]? = some h) :
    w2.entities.get h = .ok { index := j, arche := some s } := by
  have hrec := hwf.rowsRecorded s a ha _ _ hj
  obtain ⟨i, hi⟩ := hr.live
  rw [get_placed_other hr, hrec]
  apply WellFormed.index_ne hrec hi
  intro hd
  have := congrArg EntityData.arche hd
  simp at this

theorem find_self (hr : Placed w w2 e q dst dstF) : w2.arches.find? q = some dstF := by
  rw [hr.arches]; simp

theorem place_wellFormed (hwf : w.WellFormed) (hr : Placed w w2 e q dst dstF) : w2.WellFormed := by
  have hsig : dst.signature = q := hwf.signatureKey _ _ hr.findDst
  refine ⟨hr.keys, ?_, ?_, ?_, ?_⟩
  · intro s a hf
    rw [hr.arches] at hf
    by_cases hs : s = q
    · simp only [hs, if_true, Option.some.injEq] at hf
      rw [← hf, hs, hr.signatureF]; exact hsig
    · simp only [hs, if_false] at hf
      exact hwf.signatureKey s a hf
  · intro s a hf c hc
    rw [hr.arches] at hf
    by_cases hs : s = q
    · simp only [hs, if_true, Option.some.injEq] at hf
      subst hf
      rw [hs] at hc
      obtain ⟨v, hv⟩ := hr.columnsF c hc
      rw [hv, hr.entitiesF, List.length_append, List.length_append,
        hwf.aligned q dst hr.findDst c hc]
      rfl
    · simp only [hs, if_false] at hf
      exact hwf.aligned s a hf c hc
  · intro s a hf row h hrow
    rw [hr.arches] at hf
    by_cases hs : s = q
    · simp only [hs, if_true, Option.some.injEq] at hf
      subst hf
      rw [hs]
      rw [hr.entitiesF] at hrow
      by_cases h1 : row < dst.entities.length
      · rw [List.getElem?_append_left h1] at hrow
        exact get_placed_of_row hwf hr hr.findDst hrow
      · rw [List.getElem?_append_right (by omega)] at hrow
        have h2 : row = dst.entities.length := by
          by_contra hcon
          have : row - dst.entities.length ≠ 0 := by omega
          obtain ⟨k, hk⟩ := Nat.exists_eq_succ_of_ne_zero this
          rw [hk] at hrow
          simp at hrow
        subst h2
        simp only [Nat.sub_self, List.getElem?_cons_zero, Option.some.injEq] at hrow
        subst hrow
        exact get_placed_self hr rfl
    · simp only [hs, if_false] at hf
      exact get_placed_of_row hwf hr hf hrow
  · intro f d2 s hg ha
    by_cases hfe : f.index = e.index
    · rw [get_placed_self hr hfe] at hg
      cases hg
      simp only [Option.some.injEq] at ha
      subst ha
      refine ⟨dstF, find_self hr, e, ?_, hfe.symm⟩
      rw [hr.entitiesF]
      simp
    · rw [get_placed_other hr hfe] at hg
      obtain ⟨a, hfa, h3, hh3, hi3⟩ := hwf.recordsPlaced f d2 s hg ha
      by_cases hs : s = q
      · subst hs
        rw [hr.findDst] at hfa
        cases hfa
        refine ⟨dstF, find_self hr, h3, ?_, hi3⟩
        rw [hr.entitiesF]
        have : d2.index < dst.entities.length := by
          by_contra hcon
          rw [List.getElem?_eq_none (by omega)] at hh3
          cases hh3
        rw [List.getElem?_append_left this]
        exact hh3
      · refine ⟨a, ?_, h3, hh3, hi3⟩
        rw [hr.arches]; simp [hs, hfa]

/-- Frame of a placement: every other entity keeps `has` and `get`. -/
theorem place_frame (hwf : w.WellFormed) (hr : Placed w w2 e q dst dstF) {f : EntityID}
    (hfe : f.index ≠ e.index) (t : ComponentID) :
    w2.has f t = w.has f t ∧ w2.get f t = w.get f t := by
  have hsig : dst.signature = q := hwf.signatureKey _ _ hr.findDst
  have hg := get_placed_other hr hfe
  have key : ∀ d2 s, w.entities.get f = .ok d2 → d2.arche = some s →
      ∃ a a2, w.arches.find? s = some a ∧ w2.arches.find? s = some a2 ∧
        a2.signature = a.signature ∧
        ∀ c, a.signature.test c = true → (a2.columns c)[d2.index]? = (a.columns c)[d2.index]? := by
    intro d2 s hd2 ha
    by_cases hs : s = q
    · subst hs
      obtain ⟨hlt, -⟩ := hwf.row_of_record hd2 ha hr.findDst
      refine ⟨dst, dstF, hr.findDst, find_self hr, hr.signatureF, fun c hc => ?_⟩
      rw [hsig] at hc
      obtain ⟨v, hv⟩ := hr.columnsF c hc
      rw [hv, List.getElem?_append_left]
      rw [hwf.aligned s dst hr.findDst c hc]
      exact hlt
    · obtain ⟨a, hfa, -⟩ := hwf.recordsPlaced f d2 s hd2 ha
      refine ⟨a, a, hfa, ?_, rfl, fun c _ => rfl⟩
      rw [hr.arches]; simp [hs, hfa]
  constructor
  · apply has_congr hg
    intro d2 s hd2 ha
    obtain ⟨a, a2, h1, h2, h3, -⟩ := key d2 s hd2 ha
    exact ⟨a, a2, h1, h2, h3⟩
  · exact get_eq_of_columns hg key t

theorem has_self (hwf : w.WellFormed) (hr : Placed w w2 e q dst dstF) (t : ComponentID) :
    w2.has e t = .ok (q.test t) := by
  rw [has_of_attached (get_placed_self hr rfl) rfl (find_self hr), hr.signatureF,
    hwf.signatureKey _ _ hr.findDst]

theorem get_self_value (hwf : w.WellFormed) (hr : Placed w w2 e q dst dstF) (t : ComponentID)
    (v : Value) (ht : q.test t = true) (hv : dstF.columns t = dst.columns t ++ [v]) :
    w2.get e t = .ok v := by
  rw [get_of_attached (get_placed_self hr rfl) rfl (find_self hr)]
  have hal := hwf.aligned q dst hr.findDst t ht
  simp [Archetype.getComponent, hr.signatureF, hwf.signatureKey _ _ hr.findDst, ht, hv, ← hal]

end Placed

end World

namespace World

/-! ## From the steps of `attach` and `detach` to the two elementary moves -/

/-- The handle that `erase` reports as relocated is the handle of the last row, is live, and is
not the erased entity. -/
theorem WellFormed.moved_record {w : World} (hwf : w.WellFormed) {e : EntityID}
    {d : EntityData} {p : Signature} {src : Archetype} (hl : w.entities.get e = .ok d)
    (ha : d.arche = some p) (hs : w.arches.find? p = some src) {m : EntityID}
    (hm : (src.erased d.index).entities[d.index]? = some m) :
    w.entities.get m = .ok { index := src.entities.length - 1, arche := some p } ∧
      m.index ≠ e.index := by
  obtain ⟨hlt, -⟩ := hwf.row_of_record hl ha hs
  rw [Archetype.getElem?_entities_erased _ _ _ hlt] at hm
  by_cases h1 : d.index + 1 < src.entities.length
  · simp only [h1, if_true] at hm
    have hrec := hwf.rowsRecorded p src hs _ _ hm
    refine ⟨hrec, ?_⟩
    apply WellFormed.index_ne hrec hl
    intro hd
    have : d.index = src.entities.length - 1 := by rw [← hd]
    omega
  · simp [h1] at hm

/-- Adding an archetype without rows under a key that is not in the map keeps the invariant and
every `has` and `get`. -/
theorem WellFormed.assign_fresh {w : World} (hwf : w.WellFormed) {s : Signature}
    (hnone : w.arches.find? s = none) (a : Archetype) (hsig : a.signature = s)
    (he : a.entities = []) (hcol : ∀ c, a.columns c = []) :
    World.WellFormed { arches := w.arches.assign s a, entities := w.entities } := by
  refine ⟨ArcheMap.nodup_keys_assign _ _ _ hwf.keysNodup, ?_, ?_, ?_, ?_⟩
  · intro s2 a2 hf
    by_cases hs : s2 = s
    · subst hs
      rw [ArcheMap.find?_assign_self] at hf
      cases hf
      exact hsig
    · rw [ArcheMap.find?_assign_ne _ _ hs] at hf
      exact hwf.signatureKey s2 a2 hf
  · intro s2 a2 hf c hc
    by_cases hs : s2 = s
    · subst hs
      rw [ArcheMap.find?_assign_self] at hf
      cases hf
      rw [hcol c, he]
      rfl
    · rw [ArcheMap.find?_assign_ne _ _ hs] at hf
      exact hwf.aligned s2 a2 hf c hc
  · intro s2 a2 hf row h hrow
    by_cases hs : s2 = s
    · subst hs
      rw [ArcheMap.find?_assign_self] at hf
      cases hf
      rw [he] at hrow
      simp at hrow
    · rw [ArcheMap.find?_assign_ne _ _ hs] at hf
      exact hwf.rowsRecorded s2 a2 hf row h hrow
  · intro f d2 s2 hg ha
    obtain ⟨a2, hfa, h3⟩ := hwf.recordsPlaced f d2 s2 hg ha
    have hs : s2 ≠ s := by
      intro heq
      rw [heq, hnone] at hfa
      cases hfa
    exact ⟨a2, by rw [ArcheMap.find?_assign_ne _ _ hs]; exact hfa, h3⟩

theorem WellFormed.assign_fresh_frame {w : World} (hwf : w.WellFormed) {s : Signature}
    (hnone : w.arches.find? s = none) (a : Archetype) (f : EntityID) (t : ComponentID) :
    World.has { arches := w.arches.assign s a, entities := w.entities } f t = w.has f t ∧
    World.get { arches := w.arches.assign s a, entities := w.entities } f t = w.get f t := by
  have key : ∀ d2 s2, w.entities.get f = .ok d2 → d2.arche = some s2 →
      ∃ a1 a2, w.arches.find? s2 = some a1 ∧ (w.arches.assign s a).find? s2 = some a2 ∧
        a2.signature = a1.signature ∧
        ∀ c, a1.signature.test c = true →
          (a2.columns c)[d2.index]? = (a1.columns c)[d2.index]? := by
    intro d2 s2 hd2 ha
    obtain ⟨a1, hfa, -⟩ := hwf.recordsPlaced f d2 s2 hd2 ha
    have hs : s2 ≠ s := by
      intro heq
      rw [heq, hnone] at hfa
      cases hfa
    exact ⟨a1, a1, hfa, by rw [ArcheMap.find?_assign_ne _ _ hs]; exact hfa, rfl, fun _ _ => rfl⟩
  constructor
  · apply @has_congr w { arches := w.arches.assign s a, entities := w.entities } f rfl
    intro d2 s2 hd2 ha
    obtain ⟨a1, a2, h1, h2, h3, -⟩ := key d2 s2 hd2 ha
    exact ⟨a1, a2, h1, h2, h3⟩
  · exact @get_eq_of_columns w { arches := w.arches.assign s a, entities := w.entities } f rfl key t

/-- The two writes to the entity index that follow an erase: the write through the handle that
`erase` returned, which is the relocated entity or, when the erased row was the last row, the
erased entity itself, and the new record of the moved entity. -/
theorem WellFormed.patch_and_set {w : World} (hwf : w.WellFormed) {e : EntityID}
    {d : EntityData} {p : Signature} {src : Archetype} (hl : w.entities.get e = .ok d)
    (ha : d.arche = some p) (hs : w.arches.find? p = some src) (record : EntityData) :
    ∃ last ev1 ev2, src.entities.getLast? = some last ∧
      w.entities.patchIndex last d.index = .ok ev1 ∧
      ev1.set e record = .ok ev2 ∧
      ∀ f, ev2.get f =
        if f.index = e.index then .ok record
        else match (src.erased d.index).entities[d.index]? with
          | some moved =>
            if f.index = moved.index then .ok { index := d.index, arche := some p }
            else w.entities.get f
          | none => w.entities.get f := by
  obtain ⟨hrow, h2, hh2, hi⟩ := hwf.row_of_record hl ha hs
  obtain ⟨last, hlast, hlast2⟩ := Archetype.getLast?_entities src (by omega)
  cases hm : (src.erased d.index).entities[d.index]? with
  | none =>
    have hend : ¬ d.index + 1 < src.entities.length := by
      intro hlt
      rw [Archetype.getElem?_entities_erased _ _ _ hrow] at hm
      simp only [hlt, if_true] at hm
      rw [hlast2] at hm
      cases hm
    have hidx : src.entities.length - 1 = d.index := by omega
    rw [hidx, hh2] at hlast2
    cases hlast2
    have hl2 : w.entities.get h2 = .ok d := by
      rw [EntityVector.get_congr _ hi]; exact hl
    obtain ⟨ev1, h1, hg1⟩ := EntityVector.patchIndex_some w.entities h2 d d.index hl2
    have hle : ev1.get e = .ok d := by
      rw [hg1 e]
      simp [hi]
    obtain ⟨ev2, h3, h4⟩ := EntityVector.get_set ev1 e d record hle
    refine ⟨h2, ev1, ev2, hlast, h1, h3, fun f => ?_⟩
    rw [h4 f, hg1 f]
    by_cases hfe : f.index = e.index
    · simp [hfe]
    · have : ¬ f.index = h2.index := by rw [hi]; exact hfe
      simp [hfe, this]
  | some m =>
    have hml : last = m := by
      rw [Archetype.getElem?_entities_erased _ _ _ hrow] at hm
      by_cases hlt : d.index + 1 < src.entities.length
      · simp only [hlt, if_true] at hm
        rw [hlast2] at hm
        exact Option.some.inj hm
      · simp [hlt] at hm
    subst hml
    obtain ⟨hmrec, hne⟩ := hwf.moved_record hl ha hs hm
    obtain ⟨ev1, h1, h2g⟩ := EntityVector.patchIndex_some w.entities last _ d.index hmrec
    have hle : ev1.get e = .ok d := by
      rw [h2g e]
      have : ¬ e.index = last.index := fun x => hne x.symm
      simp [this, hl]
    obtain ⟨ev2, h3, h4⟩ := EntityVector.get_set ev1 e d record hle
    refine ⟨last, ev1, ev2, hlast, h1, h3, fun f => ?_⟩
    rw [h4 f, h2g f]

/-- A carry into `q` followed by the erase from `p` is an erase followed by a placement. -/
theorem WellFormed.relocate {w w2 : World} (hwf : w.WellFormed) {e : EntityID}
    {d : EntityData} {p q : Signature} {src dst dstF : Archetype}
    (hl : w.entities.get e = .ok d) (ha : d.arche = some p)
    (hp : w.arches.find? p = some src) (hq : w.arches.find? q = some dst) (hpq : p ≠ q)
    (hsigF : dstF.signature = dst.signature) (hentF : dstF.entities = dst.entities ++ [e])
    (hcolF : ∀ c, q.test c = true → ∃ v, dstF.columns c = dst.columns c ++ [v])
    (hkeys : w2.arches.keys.Nodup)
    (harch : ∀ s, w2.arches.find? s =
      if s = q then some dstF else if s = p then some (src.erased d.index)
      else w.arches.find? s)
    (hent : ∀ f, w2.entities.get f =
      if f.index = e.index then .ok { index := dst.entities.length, arche := some q }
      else match (src.erased d.index).entities[d.index]? with
        | some moved =>
          if f.index = moved.index then .ok { index := d.index, arche := some p }
          else w.entities.get f
        | none => w.entities.get f) :
    ∃ wmid, Removed w wmid e d p src ∧ Placed wmid w2 e q dst dstF := by
  obtain ⟨-, ev1, evmid, -, -, -, hmid⟩ := hwf.patch_and_set hl ha hp { index := 0, arche := none }
  refine ⟨{ arches := w.arches.assign p (src.erased d.index), entities := evmid }, ?_, ?_⟩
  · refine ⟨hl, ha, hp, ArcheMap.nodup_keys_assign _ _ _ hwf.keysNodup, ?_, hmid⟩
    intro s
    by_cases hs : s = p
    · subst hs; simp [ArcheMap.find?_assign_self]
    · simp [ArcheMap.find?_assign_ne _ _ hs, hs]
  · refine ⟨⟨0, ?_⟩, ?_, hsigF, hentF, hcolF, hkeys, ?_, ?_⟩
    · show evmid.get e = _
      rw [hmid e]; simp
    · show (w.arches.assign p (src.erased d.index)).find? q = some dst
      rw [ArcheMap.find?_assign_ne _ _ (fun x => hpq x.symm)]
      exact hq
    · intro s
      show _ = if s = q then some dstF else (w.arches.assign p (src.erased d.index)).find? s
      rw [harch s]
      by_cases hsq : s = q
      · simp [hsq]
      · by_cases hsp : s = p
        · subst hsp; simp [hsq, ArcheMap.find?_assign_self]
        · simp [hsq, hsp, ArcheMap.find?_assign_ne _ _ hsp]
    · intro f
      show _ = if f.index = e.index then _ else evmid.get f
      rw [hent f, hmid f]
      by_cases hfe : f.index = e.index
      · simp [hfe]
      · simp [hfe]

end World

namespace Signature

theorem union_empty (s : Signature) : s.union empty = s := by
  simp [union, empty]

theorem eq_empty_of_any_eq_false {s : Signature} (h : s.any = false) : s = empty := by
  cases s with | mk b =>
  simp only [any, bne_eq_false_iff_eq, beq_iff_eq] at h
  simp [empty, h]

theorem ne_of_test_ne {s t : Signature} {c : ComponentID} (h : s.test c ≠ t.test c) : s ≠ t := by
  intro heq
  rw [heq] at h
  exact h rfl

end Signature

namespace World

/-! ## The code of `attach` and `detach` on a well-formed world -/

theorem columns_carried_shared {dst src : Archetype} {e : EntityID} {row : Nat}
    {comps : List (ComponentID × Value)} {x : ComponentID} {v : Value}
    (hq : dst.signature.test x = true) (hp : src.signature.test x = true)
    (hv : (src.columns x)[row]? = some v) (hx : x ∉ comps.map Prod.fst)
    (hn : (comps.map Prod.fst).Nodup) :
    (pushComponents (dst.carried row e src) comps).columns x = dst.columns x ++ [v] := by
  have hlen := length_filter_fst_of_nodup comps x hn
  simp only [hx, if_false] at hlen
  rw [columns_pushComponents, List.length_eq_zero.1 hlen]
  simp [Archetype.carried, hq, hp, hv]

theorem columns_carried_new {dst src : Archetype} {e : EntityID} {row : Nat}
    {comps : List (ComponentID × Value)} {x : ComponentID}
    (hp : src.signature.test x = false) (hx : x ∈ comps.map Prod.fst)
    (hn : (comps.map Prod.fst).Nodup) :
    ∃ v, (pushComponents (dst.carried row e src) comps).columns x = dst.columns x ++ [v] := by
  have hlen := length_filter_fst_of_nodup comps x hn
  simp only [hx, if_true] at hlen
  obtain ⟨y, hy⟩ := List.length_eq_one.1 hlen
  refine ⟨y.2, ?_⟩
  rw [columns_pushComponents, hy]
  simp [Archetype.carried, hp]

theorem columns_pushed_new {dst : Archetype} {e : EntityID}
    {comps : List (ComponentID × Value)} {x : ComponentID}
    (hx : x ∈ comps.map Prod.fst) (hn : (comps.map Prod.fst).Nodup) :
    ∃ v, (pushComponents (dst.pushEntity e).1 comps).columns x = dst.columns x ++ [v] := by
  have hlen := length_filter_fst_of_nodup comps x hn
  simp only [hx, if_true] at hlen
  obtain ⟨y, hy⟩ := List.length_eq_one.1 hlen
  refine ⟨y.2, ?_⟩
  rw [columns_pushComponents, hy]
  simp [Archetype.pushEntity]

/-- Lines 93-105 of `attach` on a well-formed world: afterwards the destination is in the map,
every other key is as before, and the invariant and every `has` and `get` are kept. -/
theorem WellFormed.attachDestination {w : World} (hwf : w.WellFormed)
    (ids : List ComponentID) (old : Option Signature) (q : Signature)
    (hold : ∀ p, old = some p →
      ∃ src, w.arches.find? p = some src ∧ q = (Signature.build ids).union src.signature)
    (hnew : old = none → q = Signature.build ids) :
    ∃ arches1 dst, World.attachDestination w.arches ids old q = .ok arches1 ∧
      World.WellFormed { arches := arches1, entities := w.entities } ∧
      arches1.find? q = some dst ∧
      (∀ s, s ≠ q → arches1.find? s = w.arches.find? s) ∧
      (∀ f t, World.has { arches := arches1, entities := w.entities } f t = w.has f t ∧
        World.get { arches := arches1, entities := w.entities } f t = w.get f t) := by
  cases hq : w.arches.find? q with
  | some dst =>
    exact ⟨w.arches, dst, by simp [World.attachDestination, hq], hwf, hq, fun _ _ => rfl,
      fun _ _ => ⟨rfl, rfl⟩⟩
  | none =>
    cases old with
    | none =>
      refine ⟨w.arches.assign q (Archetype.build ids), Archetype.build ids,
        by simp [World.attachDestination, hq],
        hwf.assign_fresh hq _ (by rw [hnew rfl]; rfl) rfl (fun _ => rfl),
        ArcheMap.find?_assign_self _ _ _,
        fun s hs => ArcheMap.find?_assign_ne _ _ hs,
        fun f t => hwf.assign_fresh_frame hq _ f t⟩
    | some p =>
      obtain ⟨src, hsrc, hqe⟩ := hold p rfl
      refine ⟨w.arches.assign q (Archetype.buildFrom ids src), Archetype.buildFrom ids src,
        by simp [World.attachDestination, hq, ArcheMap.deref, hsrc],
        hwf.assign_fresh hq _ (by rw [hqe]; rfl) rfl (fun _ => rfl),
        ArcheMap.find?_assign_self _ _ _,
        fun s hs => ArcheMap.find?_assign_ne _ _ hs,
        fun f t => hwf.assign_fresh_frame hq _ f t⟩

theorem attach_eq_of_unattached {w : World} {e : EntityID} {d : EntityData}
    (c : ComponentID × Value) (cs : List (ComponentID × Value))
    (hl : w.entities.get e = .ok d) (ha : d.arche = none)
    {arches1 : ArcheMap} {dst : Archetype} {ev2 : EntityVector}
    (hdest : World.attachDestination w.arches ((c :: cs).map Prod.fst) none
      (Signature.build ((c :: cs).map Prod.fst)) = .ok arches1)
    (hq : arches1.find? (Signature.build ((c :: cs).map Prod.fst)) = some dst)
    (hset : w.entities.set e
      { index := dst.entities.length
        arche := some (Signature.build ((c :: cs).map Prod.fst)) } = .ok ev2) :
    w.attach e c cs = .ok
      { arches := (arches1.assign (Signature.build ((c :: cs).map Prod.fst))
            (dst.pushEntity e).1).assign (Signature.build ((c :: cs).map Prod.fst))
          (pushComponents (dst.pushEntity e).1 (c :: cs)),
        entities := ev2 } := by
  simp only [attach, hl, ha, bind, Except.bind, pure, Except.pure, hdest, ArcheMap.deref, hq,
    ArcheMap.find?_assign_self, Archetype.pushEntity, hset]

theorem attach_eq_of_attached {w : World} {e : EntityID} {d : EntityData} {p : Signature}
    {src : Archetype} (c : ComponentID × Value) (cs : List (ComponentID × Value))
    (hl : w.entities.get e = .ok d) (ha : d.arche = some p)
    (hp : w.arches.find? p = some src)
    {arches1 : ArcheMap} {dst : Archetype} {ev1 ev2 : EntityVector}
    (hdest : World.attachDestination w.arches ((c :: cs).map Prod.fst) (some p)
      ((Signature.build ((c :: cs).map Prod.fst)).union src.signature) = .ok arches1)
    (hp1 : arches1.find? p = some src)
    (hq : arches1.find? ((Signature.build ((c :: cs).map Prod.fst)).union src.signature)
      = some dst)
    (hpq : p ≠ (Signature.build ((c :: cs).map Prod.fst)).union src.signature)
    (hrow : d.index < src.entities.length)
    {last : EntityID} (hlast : src.entities.getLast? = some last)
    (hpatch : w.entities.patchIndex last d.index = .ok ev1)
    (hset : ev1.set e
      { index := dst.entities.length
        arche := some ((Signature.build ((c :: cs).map Prod.fst)).union src.signature) }
      = .ok ev2) :
    w.attach e c cs = .ok
      { arches := (((arches1.assign
            ((Signature.build ((c :: cs).map Prod.fst)).union src.signature)
            (dst.carried d.index e src)).assign p (src.erased d.index)).assign
            ((Signature.build ((c :: cs).map Prod.fst)).union src.signature)
            (pushComponents (dst.carried d.index e src) (c :: cs))),
        entities := ev2 } := by
  have hqp : (Signature.build ((c :: cs).map Prod.fst)).union src.signature ≠ p :=
    fun x => hpq x.symm
  simp only [attach, hl, ha, bind, Except.bind, pure, Except.pure, ArcheMap.deref, hp,
    Except.map, hdest, hp1, hq, Archetype.carryEntity_eq _ _ _ _ hrow,
    ArcheMap.find?_assign_ne _ _ hpq, ArcheMap.find?_assign_ne _ _ hqp,
    ArcheMap.find?_assign_self, Archetype.erase_eq _ _ _ hrow hlast, hpatch, hset]

end World

theorem Archetype.getComponent_eq_ok (a : Archetype) (c : ComponentID) (i : Nat) (v : Value) :
    a.getComponent c i = .ok v ↔ a.signature.test c = true ∧ (a.columns c)[i]? = some v := by
  unfold Archetype.getComponent
  cases ht : a.signature.test c
  · simp
  · cases hv : (a.columns c)[i]? <;> simp

namespace World

theorem signatureOf_eq {w : World} {e : EntityID} {d : EntityData}
    (hl : w.entities.get e = .ok d) : w.signatureOf e = d.arche.getD Signature.empty := by
  simp [signatureOf, hl]

theorem recordAfterErase_of_unattached {w : World} {e : EntityID} {d : EntityData}
    (hl : w.entities.get e = .ok d) (ha : d.arche = none) (f : EntityID) :
    w.recordAfterErase e d f = w.entities.get f := by
  simp [recordAfterErase, relocatedBy, hl, ha]

theorem WellFormed.recordAfterErase_of_attached {w : World} (hwf : w.WellFormed)
    {e : EntityID} {d : EntityData} {p : Signature} {src : Archetype}
    (hl : w.entities.get e = .ok d) (ha : d.arche = some p)
    (hp : w.arches.find? p = some src) (f : EntityID) :
    w.recordAfterErase e d f =
      match (src.erased d.index).entities[d.index]? with
      | some moved =>
        if f.index = moved.index then .ok { index := d.index, arche := some p }
        else w.entities.get f
      | none => w.entities.get f := by
  obtain ⟨hrow, -⟩ := hwf.row_of_record hl ha hp
  rw [Archetype.getElem?_entities_erased _ _ _ hrow]
  simp only [recordAfterErase, relocatedBy, hl, ha, hp, if_true]

/-- The call `attach` on a well-formed world, for a live entity and pairwise distinct types it does
not carry: the call returns, keeps the invariant, records the entity in the archetype of the union
signature, keeps every value the entity had, and keeps `has` and `get` of every other entity. -/
theorem WellFormed.attach {w : World} (hwf : w.WellFormed) {e : EntityID} {d : EntityData}
    (c : ComponentID × Value) (cs : List (ComponentID × Value))
    (hl : w.entities.get e = .ok d) (hn : ((c :: cs).map Prod.fst).Nodup)
    (hfresh : ∀ x ∈ (c :: cs).map Prod.fst, (w.signatureOf e).test x = false) :
    ∃ w2, w.attach e c cs = .ok w2 ∧ w2.WellFormed ∧
      (∃ i, w2.entities.get e = .ok
        { index := i
          arche := some ((Signature.build ((c :: cs).map Prod.fst)).union (w.signatureOf e)) }) ∧
      (∀ x v, w.get e x = .ok v → w2.get e x = .ok v) ∧
      (∀ f : EntityID, f.index ≠ e.index →
        ∀ t, w2.has f t = w.has f t ∧ w2.get f t = w.get f t) ∧
      (∀ f : EntityID, f.index ≠ e.index →
        w2.entities.get f = w.recordAfterErase e d f) := by
  rw [signatureOf_eq hl] at hfresh ⊢
  cases ha : d.arche with
  | none =>
    simp only [Option.getD_none, Signature.union_empty]
    obtain ⟨arches1, dst, hdest, hwf1, hq1, -, hframe1⟩ :=
      hwf.attachDestination ((c :: cs).map Prod.fst) none
        (Signature.build ((c :: cs).map Prod.fst)) (fun p hp => by cases hp) (fun _ => rfl)
    obtain ⟨ev2, hset, hget2⟩ := EntityVector.get_set w.entities e d
      { index := dst.entities.length
        arche := some (Signature.build ((c :: cs).map Prod.fst)) } hl
    have hpl : Placed { arches := arches1, entities := w.entities }
        { arches := (arches1.assign (Signature.build ((c :: cs).map Prod.fst))
              (dst.pushEntity e).1).assign (Signature.build ((c :: cs).map Prod.fst))
            (pushComponents (dst.pushEntity e).1 (c :: cs)),
          entities := ev2 } e (Signature.build ((c :: cs).map Prod.fst)) dst
        (pushComponents (dst.pushEntity e).1 (c :: cs)) := by
      refine ⟨⟨d.index, ?_⟩, hq1, ?_, ?_, ?_, ?_, ?_, hget2⟩
      · show w.entities.get e = _
        rw [hl, ← ha]
      · rw [signature_pushComponents]; rfl
      · rw [entities_pushComponents]; rfl
      · intro x hx
        rw [Signature.test_build, decide_eq_true_eq] at hx
        exact columns_pushed_new hx hn
      · exact ArcheMap.nodup_keys_assign _ _ _ (ArcheMap.nodup_keys_assign _ _ _ hwf1.keysNodup)
      · intro s
        exact ArcheMap.find?_assign_twice _ _ _ _ s
    refine ⟨_, attach_eq_of_unattached c cs hl ha hdest hq1 hset, hpl.place_wellFormed hwf1,
      ⟨_, hpl.get_placed_self rfl⟩, ?_, ?_, ?_⟩
    rotate_left 2
    · intro f hfe
      rw [recordAfterErase_of_unattached hl ha]
      exact hpl.get_placed_other hfe
    · intro x v hv
      rw [get_of_unattached hl ha] at hv
      cases hv
    · intro f hfe t
      have h1 := hpl.place_frame hwf1 hfe t
      have h2 := hframe1 f t
      exact ⟨h1.1.trans h2.1, h1.2.trans h2.2⟩
  | some p =>
    simp only [Option.getD_some]
    rw [ha] at hfresh
    simp only [Option.getD_some] at hfresh
    obtain ⟨src, hp, -⟩ := hwf.recordsPlaced e d p hl ha
    obtain ⟨hrow, -⟩ := hwf.row_of_record hl ha hp
    have hsig : src.signature = p := hwf.signatureKey p src hp
    have hpq : p ≠ (Signature.build ((c :: cs).map Prod.fst)).union p := by
      apply Signature.ne_of_test_ne (c := c.1)
      rw [hfresh c.1 (by simp), Signature.test_union, Signature.test_build]
      simp
    obtain ⟨arches1, dst, hdest, hwf1, hq1, hother, hframe1⟩ :=
      hwf.attachDestination ((c :: cs).map Prod.fst) (some p)
        ((Signature.build ((c :: cs).map Prod.fst)).union p)
        (fun p2 hp2 => by cases hp2; exact ⟨src, hp, by rw [hsig]⟩) (fun h => by cases h)
    have hp1 : arches1.find? p = some src := by rw [hother p hpq]; exact hp
    obtain ⟨last, ev1, ev2, hlast, hpatch, hset, hget2⟩ :=
      hwf1.patch_and_set hl ha hp1
        { index := dst.entities.length
          arche := some ((Signature.build ((c :: cs).map Prod.fst)).union p) }
    have hsigd : dst.signature = (Signature.build ((c :: cs).map Prod.fst)).union p :=
      hwf1.signatureKey _ _ hq1
    have hshared : ∀ x v, p.test x = true → (src.columns x)[d.index]? = some v →
        (pushComponents (dst.carried d.index e src) (c :: cs)).columns x
          = dst.columns x ++ [v] := by
      intro x v hx hv
      apply columns_carried_shared _ (hsig ▸ hx) hv _ hn
      · rw [hsigd, Signature.test_union, hx]; simp
      · intro hmem
        rw [hfresh x hmem] at hx
        cases hx
    have hrel : ∃ wmid, Removed { arches := arches1, entities := w.entities } wmid e d p src ∧
        Placed wmid
          { arches := (((arches1.assign
                ((Signature.build ((c :: cs).map Prod.fst)).union p)
                (dst.carried d.index e src)).assign p (src.erased d.index)).assign
                ((Signature.build ((c :: cs).map Prod.fst)).union p)
                (pushComponents (dst.carried d.index e src) (c :: cs))),
            entities := ev2 }
          e ((Signature.build ((c :: cs).map Prod.fst)).union p) dst
          (pushComponents (dst.carried d.index e src) (c :: cs)) := by
      apply hwf1.relocate hl ha hp1 hq1 hpq
      · rw [signature_pushComponents]; rfl
      · rw [entities_pushComponents]; rfl
      · intro x hx
        cases hpx : p.test x with
        | true =>
          have hlen := hwf.aligned p src hp x hpx
          have hlt : d.index < (src.columns x).length := by omega
          exact ⟨(src.columns x)[d.index], hshared x _ hpx (List.getElem?_eq_getElem hlt)⟩
        | false =>
          rw [Signature.test_union, hpx, Signature.test_build] at hx
          simp only [Bool.or_false, decide_eq_true_eq] at hx
          exact columns_carried_new (hsig ▸ hpx) hx hn
      · exact ArcheMap.nodup_keys_assign _ _ _ (ArcheMap.nodup_keys_assign _ _ _
          (ArcheMap.nodup_keys_assign _ _ _ hwf1.keysNodup))
      · intro s
        exact ArcheMap.find?_assign_triple _ _ _ _ hpq s
      · exact hget2
    obtain ⟨wmid, hrem, hpl⟩ := hrel
    have hwfmid := hrem.erase_wellFormed hwf1
    have heq := attach_eq_of_attached c cs hl ha hp (hsig ▸ hdest) hp1 (hsig ▸ hq1)
      (hsig ▸ hpq) hrow hlast hpatch (hsig ▸ hset)
    rw [hsig] at heq
    refine ⟨_, heq, hpl.place_wellFormed hwfmid, ⟨_, hpl.get_placed_self rfl⟩, ?_, ?_, ?_⟩
    rotate_left 2
    · intro f hfe
      rw [hwf.recordAfterErase_of_attached hl ha hp, hpl.get_placed_other hfe, hrem.entities f]
      simp only [hfe, if_false]
    · intro x v hv
      rw [get_of_attached hl ha hp, Archetype.getComponent_eq_ok, hsig] at hv
      apply hpl.get_self_value hwfmid x v
      · rw [Signature.test_union, hv.1]; simp
      · exact hshared x v hv.1 hv.2
    · intro f hfe t
      have h1 := hpl.place_frame hwfmid hfe t
      have h2 := hrem.erase_frame hwf1 hfe t
      have h3 := hframe1 f t
      exact ⟨h1.1.trans (h2.1.trans h3.1), h1.2.trans (h2.2.trans h3.2)⟩

end World

namespace World

theorem detach_eq_of_nonempty {w : World} {e : EntityID} {d : EntityData} {p : Signature}
    {src : Archetype} (t : ComponentID)
    (hl : w.entities.get e = .ok d) (ha : d.arche = some p)
    (hp : w.arches.find? p = some src)
    (hany : (src.signature.set t false).any = true)
    {arches0 : ArcheMap} {dst : Archetype} {ev1 ev2 : EntityVector}
    (harches0 : (match w.arches.find? (src.signature.set t false) with
      | none => w.arches.assign (src.signature.set t false) (Archetype.buildWithout src t)
      | some _ => w.arches) = arches0)
    (hp0 : arches0.find? p = some src)
    (hq : arches0.find? (src.signature.set t false) = some dst)
    (hpq : p ≠ src.signature.set t false)
    (hrow : d.index < src.entities.length)
    {last : EntityID} (hlast : src.entities.getLast? = some last)
    (hpatch : w.entities.patchIndex last d.index = .ok ev1)
    (hset : ev1.set e
      { index := dst.entities.length
        arche := some (src.signature.set t false) } = .ok ev2) :
    w.detach e t = .ok
      { arches := (arches0.assign (src.signature.set t false)
          (dst.carried d.index e src)).assign p (src.erased d.index),
        entities := ev2 } := by
  simp only [detach, hl, ha, bind, Except.bind, pure, Except.pure, ArcheMap.deref, hp, hany,
    if_true, harches0, hp0, hq, Archetype.carryEntity_eq _ _ _ _ hrow,
    ArcheMap.find?_assign_ne _ _ hpq, Archetype.erase_eq _ _ _ hrow hlast, hpatch, hset]

theorem detach_eq_of_empty {w : World} {e : EntityID} {d : EntityData} {p : Signature}
    {src : Archetype} (t : ComponentID)
    (hl : w.entities.get e = .ok d) (ha : d.arche = some p)
    (hp : w.arches.find? p = some src)
    (hany : (src.signature.set t false).any = false)
    {ev1 ev2 : EntityVector}
    (hrow : d.index < src.entities.length)
    {last : EntityID} (hlast : src.entities.getLast? = some last)
    (hpatch : w.entities.patchIndex last d.index = .ok ev1)
    (hset : ev1.set e { index := 0, arche := none } = .ok ev2) :
    w.detach e t = .ok
      { arches := w.arches.assign p (src.erased d.index), entities := ev2 } := by
  simp only [detach, hl, ha, bind, Except.bind, pure, Except.pure, ArcheMap.deref, hp, hany,
    Bool.false_eq_true, if_false, Archetype.erase_eq _ _ _ hrow hlast, hpatch, hset]

/-- The call `detach<T>` on a well-formed world, for a live entity that carries `T`: the call returns,
keeps the invariant, records the entity in the archetype of the signature without `T`, or as
Unattached when that signature is empty, keeps every other value the entity had, and keeps `has`
and `get` of every other entity. -/
theorem WellFormed.detach {w : World} (hwf : w.WellFormed) {e : EntityID} {d : EntityData}
    (t : ComponentID) (hl : w.entities.get e = .ok d)
    (hcarry : (w.signatureOf e).test t = true) :
    ∃ w2, w.detach e t = .ok w2 ∧ w2.WellFormed ∧
      (∃ i, w2.entities.get e = .ok
        { index := i
          arche := if ((w.signatureOf e).set t false).any = true
            then some ((w.signatureOf e).set t false) else none }) ∧
      (∀ x v, x ≠ t → w.get e x = .ok v → w2.get e x = .ok v) ∧
      (∀ f : EntityID, f.index ≠ e.index →
        ∀ x, w2.has f x = w.has f x ∧ w2.get f x = w.get f x) ∧
      (∀ f : EntityID, f.index ≠ e.index →
        w2.entities.get f = w.recordAfterErase e d f) := by
  rw [signatureOf_eq hl] at hcarry ⊢
  cases ha : d.arche with
  | none =>
    rw [ha] at hcarry
    simp [Signature.test_empty] at hcarry
  | some p =>
    simp only [Option.getD_some]
    rw [ha] at hcarry
    simp only [Option.getD_some] at hcarry
    obtain ⟨src, hp, -⟩ := hwf.recordsPlaced e d p hl ha
    obtain ⟨hrow, -⟩ := hwf.row_of_record hl ha hp
    have hsig : src.signature = p := hwf.signatureKey p src hp
    have hpq : p ≠ p.set t false := by
      apply Signature.ne_of_test_ne (c := t)
      rw [hcarry, Signature.test_set]
      simp
    cases hany : (p.set t false).any with
    | false =>
      simp only [Bool.false_eq_true, if_false]
      obtain ⟨last, ev1, ev2, hlast, hpatch, hset, hget2⟩ :=
        hwf.patch_and_set hl ha hp { index := 0, arche := none }
      have hrem : Removed w { arches := w.arches.assign p (src.erased d.index), entities := ev2 }
          e d p src := by
        refine ⟨hl, ha, hp, ArcheMap.nodup_keys_assign _ _ _ hwf.keysNodup, ?_, hget2⟩
        intro s
        by_cases hs : s = p
        · subst hs; simp [ArcheMap.find?_assign_self]
        · simp [ArcheMap.find?_assign_ne _ _ hs, hs]
      refine ⟨_, detach_eq_of_empty t hl ha hp (hsig ▸ hany) hrow hlast hpatch hset,
        hrem.erase_wellFormed hwf, ⟨0, hrem.get_erased_self rfl⟩, ?_,
        fun f hfe x => hrem.erase_frame hwf hfe x, ?_⟩
      rotate_left 1
      · intro f hfe
        rw [hwf.recordAfterErase_of_attached hl ha hp, hrem.entities f]
        simp only [hfe, if_false]
      intro x v hx hv
      rw [get_of_attached hl ha hp, Archetype.getComponent_eq_ok, hsig] at hv
      have hq : (p.set t false).test x = true := by
        rw [Signature.test_set]; simp [hx, hv.1]
      have := (Signature.any_iff _).2 ⟨x, hq⟩
      rw [hany] at this
      cases this
    | true =>
      simp only [if_true]
      have hframe0 : ∃ arches0 dst,
          (match w.arches.find? (p.set t false) with
            | none => w.arches.assign (p.set t false) (Archetype.buildWithout src t)
            | some _ => w.arches) = arches0 ∧
          World.WellFormed { arches := arches0, entities := w.entities } ∧
          arches0.find? (p.set t false) = some dst ∧
          (∀ s, s ≠ p.set t false → arches0.find? s = w.arches.find? s) ∧
          (∀ f x, World.has { arches := arches0, entities := w.entities } f x = w.has f x ∧
            World.get { arches := arches0, entities := w.entities } f x = w.get f x) := by
        cases hq : w.arches.find? (p.set t false) with
        | some dst =>
          exact ⟨w.arches, dst, rfl, hwf, hq, fun _ _ => rfl, fun _ _ => ⟨rfl, rfl⟩⟩
        | none =>
          exact ⟨_, Archetype.buildWithout src t, rfl,
            hwf.assign_fresh hq _ (by rw [← hsig]; rfl) rfl (fun _ => rfl),
            ArcheMap.find?_assign_self _ _ _,
            fun s hs => ArcheMap.find?_assign_ne _ _ hs,
            fun f x => hwf.assign_fresh_frame hq _ f x⟩
      obtain ⟨arches0, dst, harches0, hwf1, hq1, hother, hframe1⟩ := hframe0
      have hp1 : arches0.find? p = some src := by rw [hother p hpq]; exact hp
      obtain ⟨last, ev1, ev2, hlast, hpatch, hset, hget2⟩ :=
        hwf1.patch_and_set hl ha hp1
          { index := dst.entities.length
            arche := some (p.set t false) }
      have hsigd : dst.signature = p.set t false := hwf1.signatureKey _ _ hq1
      have hshared : ∀ x v, (p.set t false).test x = true →
          (src.columns x)[d.index]? = some v →
          (dst.carried d.index e src).columns x = dst.columns x ++ [v] := by
        intro x v hx hv
        have hpx : p.test x = true := by
          rw [Signature.test_set] at hx
          by_cases hxt : x = t
          · simp [hxt] at hx
          · simpa [hxt] using hx
        exact @columns_carried_shared dst src e d.index [] x v (hsigd ▸ hx) (hsig ▸ hpx) hv
          (by simp) (by simp)
      have hrel : ∃ wmid, Removed { arches := arches0, entities := w.entities } wmid e d p src ∧
          Placed wmid
            { arches := (arches0.assign (p.set t false)
                (dst.carried d.index e src)).assign p (src.erased d.index),
              entities := ev2 }
            e (p.set t false) dst (dst.carried d.index e src) := by
        apply hwf1.relocate hl ha hp1 hq1 hpq
          (show (dst.carried d.index e src).signature = dst.signature from rfl)
          (show (dst.carried d.index e src).entities = dst.entities ++ [e] from rfl)
        · intro x hx
          have hpx : p.test x = true := by
            rw [Signature.test_set] at hx
            by_cases hxt : x = t
            · simp [hxt] at hx
            · simpa [hxt] using hx
          have hlen := hwf.aligned p src hp x hpx
          have hlt : d.index < (src.columns x).length := by omega
          exact ⟨(src.columns x)[d.index], hshared x _ hx (List.getElem?_eq_getElem hlt)⟩
        · exact ArcheMap.nodup_keys_assign _ _ _ (ArcheMap.nodup_keys_assign _ _ _
            hwf1.keysNodup)
        · intro s
          exact ArcheMap.find?_assign_pair _ _ _ hpq s
        · exact hget2
      obtain ⟨wmid, hrem, hpl⟩ := hrel
      have hwfmid := hrem.erase_wellFormed hwf1
      have heq := detach_eq_of_nonempty t hl ha hp (hsig ▸ hany) (hsig ▸ harches0) hp1
        (hsig ▸ hq1) (hsig ▸ hpq) hrow hlast hpatch (hsig ▸ hset)
      rw [hsig] at heq
      refine ⟨_, heq, hpl.place_wellFormed hwfmid, ⟨_, hpl.get_placed_self rfl⟩, ?_, ?_, ?_⟩
      rotate_left 2
      · intro f hfe
        rw [hwf.recordAfterErase_of_attached hl ha hp, hpl.get_placed_other hfe, hrem.entities f]
        simp only [hfe, if_false]
      · intro x v hx hv
        rw [get_of_attached hl ha hp, Archetype.getComponent_eq_ok, hsig] at hv
        have hq : (p.set t false).test x = true := by
          rw [Signature.test_set]; simp [hx, hv.1]
        exact hpl.get_self_value hwfmid x v hq (hshared x v hq hv.2)
      · intro f hfe x
        have h1 := hpl.place_frame hwfmid hfe x
        have h2 := hrem.erase_frame hwf1 hfe x
        have h3 := hframe1 f x
        exact ⟨h1.1.trans (h2.1.trans h3.1), h1.2.trans (h2.2.trans h3.2)⟩

end World

namespace EntityVector

theorem firstFree_spec (l : List Slot) (i : Nat) (h : firstFree l = some i) :
    ∃ g, l[i]? = some { generation := g, data := none } := by
  induction l generalizing i with
  | nil => simp [firstFree] at h
  | cons s rest ih =>
    simp only [firstFree] at h
    by_cases hs : s.data.isNone = true
    · simp only [hs, if_true, Option.some.injEq] at h
      subst h
      obtain ⟨g, data⟩ := s
      simp only [Option.isNone_iff_eq_none] at hs
      subst hs
      exact ⟨g, by simp⟩
    · simp only [hs, Bool.false_eq_true, if_false, Option.map_eq_some'] at h
      obtain ⟨j, hj, hji⟩ := h
      subst hji
      obtain ⟨g, hg⟩ := ih j hj
      exact ⟨g, by simpa using hg⟩

theorem get_push (ev : EntityVector) (v : EntityData) :
    ev.get (ev.push v).1 = .error .invalidHandle ∧
    ∀ f, (ev.push v).2.get f =
      if f.index = (ev.push v).1.index then .ok v else ev.get f := by
  unfold push
  cases hff : firstFree ev.slots with
  | none =>
    simp only
    constructor
    · simp [get]
    · intro f
      by_cases hf : f.index = ev.slots.length
      · simp [get, hf]
      · simp only [get, hf, if_false]
        by_cases hlt : f.index < ev.slots.length
        · rw [List.getElem?_append_left hlt]
        · have h1 : ev.slots.length ≤ f.index := by omega
          have h2 : (ev.slots ++ [({ generation := 0, data := some v } : Slot)]).length
              ≤ f.index := by
            rw [List.length_append, List.length_singleton]; omega
          rw [List.getElem?_eq_none h1, List.getElem?_eq_none h2]
  | some i =>
    obtain ⟨g, hg⟩ := firstFree_spec _ _ hff
    have hlt : i < ev.slots.length := by
      by_contra hcon
      rw [List.getElem?_eq_none (by omega)] at hg
      cases hg
    simp only
    constructor
    · simp [get, hg]
    · intro f
      by_cases hf : f.index = i
      · simp [get, hf, List.getElem?_set, hlt]
      · have : ¬ i = f.index := fun x => hf x.symm
        simp [get, hf, List.getElem?_set, this]

end EntityVector

namespace World

/-- The call `createEntity()` on a well-formed world: the invariant is kept, the new handle designates
a live Unattached entity, it was not live before, and every other record is kept. -/
theorem WellFormed.createEntity {w : World} (hwf : w.WellFormed) :
    w.createEntity.2.WellFormed ∧
    w.createEntity.2.entities.get w.createEntity.1 = .ok { index := 0, arche := none } ∧
    w.entities.get w.createEntity.1 = .error .invalidHandle ∧
    w.createEntity.2.arches = w.arches ∧
    (∀ f : EntityID, f.index ≠ w.createEntity.1.index →
      w.createEntity.2.entities.get f = w.entities.get f) := by
  obtain ⟨hnew, hget⟩ := EntityVector.get_push w.entities {}
  have hself : w.createEntity.2.entities.get w.createEntity.1
      = .ok { index := 0, arche := none } := by
    show (w.entities.push {}).2.get (w.entities.push {}).1 = _
    rw [hget]; simp
  have hother : ∀ f : EntityID, f.index ≠ w.createEntity.1.index →
      w.createEntity.2.entities.get f = w.entities.get f := by
    intro f hf
    show (w.entities.push {}).2.get f = _
    rw [hget]
    have : ¬ f.index = (w.entities.push {}).1.index := hf
    simp [this]
  have hlive : ∀ (f : EntityID) (d : EntityData), w.entities.get f = .ok d →
      f.index ≠ w.createEntity.1.index := by
    intro f d hd hi
    have := EntityVector.get_congr w.entities hi
    rw [hd] at this
    have h2 : w.entities.get w.createEntity.1 = .error .invalidHandle := hnew
    rw [h2] at this
    cases this
  refine ⟨⟨hwf.keysNodup, hwf.signatureKey, hwf.aligned, ?_, ?_⟩, hself, hnew, rfl, hother⟩
  · intro s a hf row h hrow
    have hrec := hwf.rowsRecorded s a hf row h hrow
    rw [hother h (hlive h _ hrec)]
    exact hrec
  · intro f d s hg ha
    by_cases hfi : f.index = w.createEntity.1.index
    · rw [EntityVector.get_congr _ hfi, hself] at hg
      cases hg
      cases ha
    · rw [hother f hfi] at hg
      exact hwf.recordsPlaced f d s hg ha

theorem WellFormed.empty : World.empty.WellFormed := by
  refine ⟨by simp [World.empty, ArcheMap.keys], ?_, ?_, ?_, ?_⟩
  · intro s a h; simp [World.empty, ArcheMap.find?] at h
  · intro s a h; simp [World.empty, ArcheMap.find?] at h
  · intro s a h; simp [World.empty, ArcheMap.find?] at h
  · intro f d s h; simp [World.empty, EntityVector.get] at h

end World

/-! ## Sequences of calls on one entity -/

namespace Op

end Op

namespace World

theorem signatureOf_of_record {w : World} {e : EntityID} {i : Nat} {s : Signature}
    (h : w.entities.get e = .ok { index := i, arche := some s }) : w.signatureOf e = s := by
  simp [signatureOf, h]

/-- One permitted call on a live entity of a well-formed world returns, keeps the invariant and
the liveness of the entity, and gives the entity the target signature. -/
theorem WellFormed.apply {w : World} (hwf : w.WellFormed) {e : EntityID}
    (hl : ∃ d, w.entities.get e = .ok d) (op : Op) (hp : op.permitted (w.signatureOf e)) :
    ∃ w2, op.apply w e = .ok w2 ∧ w2.WellFormed ∧ (∃ d, w2.entities.get e = .ok d) ∧
      w2.signatureOf e = op.target (w.signatureOf e) := by
  obtain ⟨d, hd⟩ := hl
  cases op with
  | attach c cs =>
    obtain ⟨w2, h1, h2, ⟨i, h3⟩, -⟩ := hwf.attach c cs hd hp.1 hp.2
    exact ⟨w2, h1, h2, ⟨_, h3⟩, signatureOf_of_record h3⟩
  | detach c =>
    obtain ⟨w2, h1, h2, ⟨i, h3⟩, -⟩ := hwf.detach c hd hp
    refine ⟨w2, h1, h2, ⟨_, h3⟩, ?_⟩
    cases hany : ((w.signatureOf e).set c false).any with
    | true =>
      rw [hany] at h3
      exact signatureOf_of_record h3
    | false =>
      rw [hany] at h3
      simp only [Bool.false_eq_true, if_false] at h3
      simp only [signatureOf, h3, Option.getD_none, Op.target]
      exact (Signature.eq_empty_of_any_eq_false hany).symm

theorem WellFormed.run {w : World} (hwf : w.WellFormed) {e : EntityID}
    (hl : ∃ d, w.entities.get e = .ok d) (ops : List Op)
    (hp : Op.allPermitted (w.signatureOf e) ops) :
    ∃ w2, w.run e ops = .ok w2 ∧ w2.WellFormed ∧ (∃ d, w2.entities.get e = .ok d) ∧
      w2.signatureOf e = Op.net (w.signatureOf e) ops := by
  induction ops generalizing w with
  | nil => exact ⟨w, rfl, hwf, hl, rfl⟩
  | cons op rest ih =>
    obtain ⟨w1, h1, hwf1, hl1, hs1⟩ := hwf.apply hl op hp.1
    obtain ⟨w2, h2, hwf2, hl2, hs2⟩ := ih hwf1 hl1 (hs1 ▸ hp.2)
    refine ⟨w2, ?_, hwf2, hl2, ?_⟩
    · simp only [World.run, h1]
      exact h2
    · rw [hs2, hs1]
      rfl

end World

namespace Scenario

theorem orEmpty_of_ok {r : Except Fault World} {w : World} (h : r = .ok w) : orEmpty r = w := by
  rw [h]; rfl

theorem wellFormed_created3 : created3.WellFormed :=
  (World.WellFormed.createEntity
    (World.WellFormed.createEntity (World.WellFormed.createEntity World.WellFormed.empty).1).1).1

theorem wellFormed_onePosition : onePosition.WellFormed := by
  obtain ⟨w2, h1, h2, -⟩ := wellFormed_created3.attach (position, 10) []
    (show created3.entities.get e1 = .ok { index := 0, arche := none } from rfl)
    (by decide) (by decide)
  rw [onePosition, orEmpty_of_ok h1]
  exact h2

theorem wellFormed_twoPositions : twoPositions.WellFormed := by
  obtain ⟨w2, h1, h2, -⟩ := wellFormed_created3.attach (position, 10) []
    (show created3.entities.get e1 = .ok { index := 0, arche := none } from rfl)
    (by decide) (by decide)
  have hl2 : w2.entities.get e2 = .ok { index := 0, arche := none } := by
    have : onePosition = w2 := orEmpty_of_ok h1
    rw [← this]
    decide
  obtain ⟨w3, h3, h4, -⟩ := h2.attach (position, 20) [] hl2 (by decide)
    (by
      have : onePosition = w2 := orEmpty_of_ok h1
      rw [← this]
      decide)
  have : twoPositions = w3 := by
    simp only [twoPositions, bind, Except.bind, h1, h3]
    rfl
  rw [this]
  exact h4

end Scenario

namespace World

end World

/-- C9, the behaviour of the code: the world `twoPositions` satisfies the location invariant, and
`e1` and `e2` carry `Position` in rows 0 and 1 of one archetype, so the row of `e1` is not the
last row and its erase relocates `e2`.  `destroyEntity(e1)` moves the row of `e2` into row 0 and
leaves the recorded row of `e2` at 1, which is no row of the archetype any more, so
`get<Position>(e2)` reads past the column; `detach<Position>(e1)` on the same world does patch
the record of `e2`. -/
theorem destroyEntity_leaves_relocated_row_unpatched :
    Scenario.twoPositions.WellFormed ∧
    Scenario.twoPositions.relocatedBy Scenario.e1 = some Scenario.e2 ∧
    Scenario.twoPositions.get Scenario.e2 Scenario.position = .ok 20 ∧
    (∃ w, Scenario.twoPositions.destroyEntity Scenario.e1 = .ok w ∧
      (w.arches.find? (Signature.build [Scenario.position])).map Archetype.entities
        = some [Scenario.e2] ∧
      w.entities.get Scenario.e2
        = .ok { index := 1, arche := some (Signature.build [Scenario.position]) } ∧
      w.get Scenario.e2 Scenario.position = .error .rowOutOfRange) ∧
    (∃ w, Scenario.twoPositions.detach Scenario.e1 Scenario.position = .ok w ∧
      w.entities.get Scenario.e2
        = .ok { index := 0, arche := some (Signature.build [Scenario.position]) } ∧
      w.get Scenario.e2 Scenario.position = .ok 20) :=
  ⟨Scenario.wellFormed_twoPositions, by decide, by decide,
   ⟨_, rfl, by decide, by decide, by decide⟩, ⟨_, rfl, by decide, by decide⟩⟩

/-! ## Duplication of an entity -/

/-- C11, the behaviour of the code: in the world `twoPositions` (location invariant holds, `e1`
in row 0 and `e2` in row 1 of the archetype `{Position}`) `copyEntity(e2)` appends the duplicate
of the row of `e2` as row 2 under the newly created handle, and records that handle in the same
archetype at the default row 0, which is the row of `e1`: `get<Position>` of the copy returns
10, the value of `e1`, while `get<Position>(e2)` is 20. -/
theorem copyEntity_records_default_row :
    Scenario.twoPositions.WellFormed ∧
    Scenario.twoPositions.get Scenario.e1 Scenario.position = .ok 10 ∧
    Scenario.twoPositions.get Scenario.e2 Scenario.position = .ok 20 ∧
    ∃ w, Scenario.twoPositions.copyEntity Scenario.e2 = .ok w ∧
      (w.arches.find? (Signature.build [Scenario.position])).map Archetype.entities
        = some [Scenario.e1, Scenario.e2, Scenario.twoPositions.createEntity.1] ∧
      (w.arches.find? (Signature.build [Scenario.position])).map
          (fun a => a.columns Scenario.position) = some [10, 20, 20] ∧
      w.entities.get Scenario.twoPositions.createEntity.1
        = .ok { index := 0, arche := some (Signature.build [Scenario.position]) } ∧
      w.get Scenario.twoPositions.createEntity.1 Scenario.position = .ok 10 ∧
      w.get Scenario.e2 Scenario.position = .ok 20 :=
  ⟨Scenario.wellFormed_twoPositions, by decide, by decide,
   ⟨_, rfl, by decide, by decide, by decide, by decide, by decide⟩⟩

/-! ## Component identity registry -/

namespace ComponentIDGenerator

theorem getElem?_generated (width : Nat) (count k : Nat) (g : ComponentIDGenerator)
    (hg : g.nextID < 2 ^ width) (hk : k < count) :
    (generated width count g)[k]? = some ((g.nextID + k) % 2 ^ width) := by
  induction count generalizing k g with
  | zero => omega
  | succ n ih =>
    cases k with
    | zero => simp [generated, generate, Nat.mod_eq_of_lt hg]
    | succ j =>
      have hpos : 0 < 2 ^ width := Nat.two_pow_pos width
      have := ih j (g.generate width).2 (Nat.mod_lt _ hpos) (by omega)
      simp only [generated, List.getElem?_cons_succ]
      rw [this]
      simp only [generate]
      rw [Nat.mod_add_mod]
      congr 2
      omega

theorem length_generated (width count : Nat) (g : ComponentIDGenerator) :
    (generated width count g).length = count := by
  induction count generalizing g with
  | zero => rfl
  | succ n ih => simp [generated, ih]

end ComponentIDGenerator

namespace ComponentRegistry

theorem id_append_of_not_mem (ids : List (Nat × Nat)) (g : ComponentIDGenerator)
    (type v : Nat) (h : id { generator := g, ids := ids } type = none) (g2 : ComponentIDGenerator) :
    id { generator := g2, ids := ids ++ [(type, v)] } type = some v := by
  simp only [id, Option.map_eq_none', List.find?_eq_none] at h
  simp only [id, List.find?_append]
  have : List.find? (fun p => p.1 == type) ids = none := by
    rw [List.find?_eq_none]; exact h
  simp [this]

theorem id_append_of_ne (ids : List (Nat × Nat)) (g g2 : ComponentIDGenerator)
    (type other v : Nat) (h : other ≠ type) :
    id { generator := g2, ids := ids ++ [(other, v)] } type
      = id { generator := g, ids := ids } type := by
  simp only [id, List.find?_append]
  cases hf : List.find? (fun p => p.1 == type) ids with
  | some x => simp
  | none => simp [h]

/-- Registering a type keeps the id of every type that has one. -/
theorem id_register_of_some (width : Nat) (r : ComponentRegistry) (type other v : Nat)
    (h : r.id type = some v) : (r.register width other).id type = some v := by
  unfold register
  cases ho : r.id other with
  | some x => exact h
  | none =>
    have hne : other ≠ type := by
      intro heq
      rw [heq, h] at ho
      cases ho
    simp only
    rw [id_append_of_ne r.ids r.generator _ type other _ hne]
    exact h

theorem id_registerAll_of_some (width : Nat) (types : List Nat) (r : ComponentRegistry)
    (type v : Nat) (h : r.id type = some v) : (r.registerAll width types).id type = some v := by
  induction types generalizing r with
  | nil => exact h
  | cons t rest ih =>
    simp only [registerAll, List.foldl_cons]
    exact ih (r.register width t) (id_register_of_some width r type t v h)

/-- The k-th of pairwise distinct, not yet registered types receives the k-th generated id. -/
theorem id_registerAll (width : Nat) (types : List Nat) (r : ComponentRegistry)
    (hn : types.Nodup) (hfresh : ∀ t ∈ types, r.id t = none)
    (hg : r.generator.nextID < 2 ^ width) (k : Nat) (t : Nat) (hk : types[k]? = some t) :
    (r.registerAll width types).id t = some ((r.generator.nextID + k) % 2 ^ width) := by
  induction types generalizing r k with
  | nil => simp at hk
  | cons t0 rest ih =>
    simp only [List.nodup_cons] at hn
    have hpos : 0 < 2 ^ width := Nat.two_pow_pos width
    have h0 : r.id t0 = none := hfresh t0 (List.mem_cons_self _ _)
    have hreg : r.register width t0 =
        { generator := (r.generator.generate width).2
          ids := r.ids ++ [(t0, (r.generator.generate width).1)] } := by
      simp [register, h0]
    simp only [registerAll, List.foldl_cons]
    cases k with
    | zero =>
      simp only [List.getElem?_cons_zero, Option.some.injEq] at hk
      subst hk
      apply id_registerAll_of_some
      rw [hreg]
      rw [id_append_of_not_mem r.ids r.generator _ _ h0]
      simp [ComponentIDGenerator.generate, Nat.mod_eq_of_lt hg]
    | succ j =>
      simp only [List.getElem?_cons_succ] at hk
      have hmem : t ∈ rest := List.getElem?_mem hk
      have := ih (r.register width t0) hn.2
        (by
          intro u hu
          rw [hreg]
          have hne : t0 ≠ u := fun e => hn.1 (e ▸ hu)
          rw [id_append_of_ne r.ids r.generator _ u t0 _ hne]
          exact hfresh u (List.mem_cons_of_mem _ hu))
        (by rw [hreg]; exact Nat.mod_lt _ hpos) j hk
      simp only [registerAll] at this
      rw [this, hreg]
      simp only [ComponentIDGenerator.generate, Nat.mod_add_mod]
      congr 2
      omega

theorem id_cons (g : ComponentIDGenerator) (p : Nat × Nat) (rest : List (Nat × Nat))
    (type : Nat) :
    id { generator := g, ids := p :: rest } type
      = if p.1 = type then some p.2 else id { generator := g, ids := rest } type := by
  simp only [id, List.find?_cons]
  by_cases hp : p.1 = type
  · simp [hp]
  · have : (p.1 == type) = false := by simpa using hp
    simp [this, hp]

theorem set_cons (g : ComponentIDGenerator) (p : Nat × Nat) (rest : List (Nat × Nat))
    (type newID : Nat) :
    set { generator := g, ids := p :: rest } type newID
      = { generator := g
          ids := (if p.1 = type then (p.1, newID) else p)
            :: (set { generator := g, ids := rest } type newID).ids } := by
  simp [set]

theorem id_set_self (r : ComponentRegistry) (type newID old : Nat) (h : r.id type = some old) :
    (r.set type newID).id type = some newID := by
  obtain ⟨g, ids⟩ := r
  induction ids with
  | nil => simp [id] at h
  | cons p rest ih =>
    rw [set_cons, id_cons]
    rw [id_cons] at h
    by_cases hp : p.1 = type
    · simp [hp]
    · simp only [hp, if_false] at h ⊢
      exact ih h

theorem id_set_of_ne (r : ComponentRegistry) (type other newID : Nat) (h : other ≠ type) :
    (r.set other newID).id type = r.id type := by
  obtain ⟨g, ids⟩ := r
  induction ids with
  | nil => rfl
  | cons p rest ih =>
    rw [set_cons, id_cons, id_cons]
    by_cases hpo : p.1 = other
    · have hpt : ¬ p.1 = type := fun e => h (hpo.symm.trans e)
      simp only [hpo, if_true, h, if_false]
      exact ih
    · simp only [hpo, if_false]
      by_cases hpt : p.1 = type
      · simp [hpt]
      · simp only [hpt, if_false]
        exact ih

end ComponentRegistry

/-- C17 as stated fails: with an 8-bit `ComponentID` the call of `generate` number 256 (counting
from zero) returns 0 and not 256, the value the call number 0 returned, and of 257 distinct
component types registered in a row the first and the last receive the same id 0. -/
theorem generate_wraps_at_width :
    (ComponentIDGenerator.generated 8 257 ComponentIDGenerator.initial)[0]? = some 0 ∧
    (ComponentIDGenerator.generated 8 257 ComponentIDGenerator.initial)[256]? = some 0 ∧
    (List.range 257).Nodup ∧
    (ComponentRegistry.registerAll 8 ComponentRegistry.initial (List.range 257)).id 0 = some 0 ∧
    (ComponentRegistry.registerAll 8 ComponentRegistry.initial (List.range 257)).id 256
      = some 0 := by
  refine ⟨?_, ?_, List.nodup_range 257, ?_, ?_⟩
  · exact ComponentIDGenerator.getElem?_generated 8 257 0 _ (by decide) (by decide)
  · exact ComponentIDGenerator.getElem?_generated 8 257 256 _ (by decide) (by decide)
  · exact ComponentRegistry.id_registerAll 8 (List.range 257) ComponentRegistry.initial
      (List.nodup_range 257) (fun _ _ => rfl) (by decide) 0 0 (by simp)
  · exact ComponentRegistry.id_registerAll 8 (List.range 257) ComponentRegistry.initial
      (List.nodup_range 257) (fun _ _ => rfl) (by decide) 256 256 (by simp)

/-- C17 as amended: with a `ComponentID` of `width` bits, the call of `generate` number `k`,
counted from zero from the initial state, returns `k` for every `k` below `2 ^ width`; pairwise
distinct component types, at most `2 ^ width` of them, registered from the initial state receive
the ids 0, 1, 2, ... in the order of registration, hence pairwise distinct ids; and the id of a
type is changed neither by the registration of another type nor by `set` on another type (`id`
itself changes nothing). -/
theorem generate_counts_from_zero (width : Nat) (types : List Nat) (hn : types.Nodup)
    (hlen : types.length ≤ 2 ^ width) :
    (∀ k count, k < count → k < 2 ^ width →
      (ComponentIDGenerator.generated width count ComponentIDGenerator.initial)[k]? = some k) ∧
    (∀ k t, types[k]? = some t →
      (ComponentRegistry.registerAll width ComponentRegistry.initial types).id t = some k) ∧
    (∀ s t, s ∈ types → t ∈ types → s ≠ t →
      (ComponentRegistry.registerAll width ComponentRegistry.initial types).id s
        ≠ (ComponentRegistry.registerAll width ComponentRegistry.initial types).id t) ∧
    (∀ (r : ComponentRegistry) (type other v : Nat), r.id type = some v →
      (r.register width other).id type = some v) ∧
    (∀ (r : ComponentRegistry) (type other newID : Nat), other ≠ type →
      (r.set other newID).id type = r.id type) := by
  have hpos : 0 < 2 ^ width := Nat.two_pow_pos width
  have hid : ∀ k t, types[k]? = some t →
      (ComponentRegistry.registerAll width ComponentRegistry.initial types).id t = some k := by
    intro k t hk
    have hklt : k < types.length := by
      by_contra hcon
      rw [List.getElem?_eq_none (by omega)] at hk
      cases hk
    have := ComponentRegistry.id_registerAll width types ComponentRegistry.initial hn
      (fun _ _ => rfl) hpos k t hk
    rw [this]
    show some ((0 + k) % 2 ^ width) = some k
    rw [Nat.zero_add, Nat.mod_eq_of_lt (by omega)]
  refine ⟨?_, hid, ?_, ?_, ?_⟩
  · intro k count hk hkw
    have := ComponentIDGenerator.getElem?_generated width count k
      ComponentIDGenerator.initial hpos hk
    rw [this]
    show some ((0 + k) % 2 ^ width) = some k
    rw [Nat.zero_add, Nat.mod_eq_of_lt hkw]
  · intro s t hs ht hst heq
    obtain ⟨i, hi⟩ := List.mem_iff_getElem?.1 hs
    obtain ⟨j, hj⟩ := List.mem_iff_getElem?.1 ht
    rw [hid i s hi, hid j t hj] at heq
    simp only [Option.some.injEq] at heq
    subst heq
    rw [hi] at hj
    simp only [Option.some.injEq] at hj
    exact hst hj
  · intro r type other v h
    exact ComponentRegistry.id_register_of_some width r type other v h
  · intro r type other newID h
    exact ComponentRegistry.id_set_of_ne r type other newID h

/-- Witness of C17 as amended: three component types under an 8-bit `ComponentID`. -/
theorem generate_counts_from_zero_witness :
    [7, 9, 4].Nodup ∧ [7, 9, 4].length ≤ 2 ^ 8 ∧
    ((∀ k count, k < count → k < 2 ^ 8 →
      (ComponentIDGenerator.generated 8 count ComponentIDGenerator.initial)[k]? = some k) ∧
    (∀ k t, [7, 9, 4][k]? = some t →
      (ComponentRegistry.registerAll 8 ComponentRegistry.initial [7, 9, 4]).id t = some k) ∧
    (∀ s t, s ∈ [7, 9, 4] → t ∈ [7, 9, 4] → s ≠ t →
      (ComponentRegistry.registerAll 8 ComponentRegistry.initial [7, 9, 4]).id s
        ≠ (ComponentRegistry.registerAll 8 ComponentRegistry.initial [7, 9, 4]).id t) ∧
    (∀ (r : ComponentRegistry) (type other v : Nat), r.id type = some v →
      (r.register 8 other).id type = some v) ∧
    (∀ (r : ComponentRegistry) (type other newID : Nat), other ≠ type →
      (r.set other newID).id type = r.id type)) :=
  ⟨by decide, by decide, generate_counts_from_zero 8 [7, 9, 4] (by decide) (by decide)⟩

/-- C18 as stated fails: with a configured maximum of 2 component types (and an 8-bit
`ComponentID`), the third registered type receives the id 2, which is not below 2, and
`set` installs the id 5 on the first type; `generate` and `set` return no error. -/
theorem registry_yields_id_at_maximum :
    (ComponentRegistry.registerAll 8 ComponentRegistry.initial [10, 11, 12]).id 12 = some 2 ∧
    ¬ (2 < 2) ∧
    ((ComponentRegistry.registerAll 8 ComponentRegistry.initial [10, 11, 12]).set 10 5).id 10
      = some 5 ∧
    ¬ (5 < 2) := by
  decide

/-- C18 as amended: the registry performs no bound check.  Of pairwise distinct component types
(at most `2 ^ width`) registered from the initial state, the one registered at position `k`
receives an id below the configured maximum `max` exactly when `k` is below `max`, so the type
registered once the maximum is reached receives the id `max`; and `set` installs the id it is
given, whatever its value. -/
theorem registry_checks_no_bound (width max : Nat) (types : List Nat) (hn : types.Nodup)
    (hlen : types.length ≤ 2 ^ width) :
    (∀ k t, types[k]? = some t →
      ∃ v, (ComponentRegistry.registerAll width ComponentRegistry.initial types).id t = some v ∧
        (v < max ↔ k < max)) ∧
    (∀ t, types[max]? = some t →
      (ComponentRegistry.registerAll width ComponentRegistry.initial types).id t = some max) ∧
    (∀ (r : ComponentRegistry) (type newID old : Nat), r.id type = some old →
      (r.set type newID).id type = some newID) := by
  have hpos : 0 < 2 ^ width := Nat.two_pow_pos width
  have hid : ∀ k t, types[k]? = some t →
      (ComponentRegistry.registerAll width ComponentRegistry.initial types).id t = some k := by
    intro k t hk
    have hklt : k < types.length := by
      by_contra hcon
      rw [List.getElem?_eq_none (by omega)] at hk
      cases hk
    have := ComponentRegistry.id_registerAll width types ComponentRegistry.initial hn
      (fun _ _ => rfl) hpos k t hk
    rw [this]
    show some ((0 + k) % 2 ^ width) = some k
    rw [Nat.zero_add, Nat.mod_eq_of_lt (by omega)]
  exact ⟨fun k t hk => ⟨k, hid k t hk, Iff.rfl⟩, fun t ht => hid max t ht,
    fun r type newID old h => ComponentRegistry.id_set_self r type newID old h⟩

/-- Witness of C18 as amended: three component types, a maximum of 2, an 8-bit `ComponentID`. -/
theorem registry_checks_no_bound_witness :
    [10, 11, 12].Nodup ∧ [10, 11, 12].length ≤ 2 ^ 8 ∧
    ((∀ k t, [10, 11, 12][k]? = some t →
      ∃ v, (ComponentRegistry.registerAll 8 ComponentRegistry.initial [10, 11, 12]).id t
          = some v ∧ (v < 2 ↔ k < 2)) ∧
    (∀ t, [10, 11, 12][2]? = some t →
      (ComponentRegistry.registerAll 8 ComponentRegistry.initial [10, 11, 12]).id t = some 2) ∧
    (∀ (r : ComponentRegistry) (type newID old : Nat), r.id type = some old →
      (r.set type newID).id type = some newID)) :=
  ⟨by decide, by decide, registry_checks_no_bound 8 2 [10, 11, 12] (by decide) (by decide)⟩

theorem Signature.set_false_of_not_test {s : Signature} {t : ComponentID}
    (h : s.test t = false) : s.set t false = s := by
  apply Signature.ext_test
  intro i
  rw [Signature.test_set]
  by_cases hi : i = t
  · simp [hi, h]
  · simp [hi]

namespace World

/-! ## Calls outside their precondition -/

/-- The handle that `erase` reports after an entity was carried into its own archetype is the
handle of the carried row, which is the last row. -/
theorem moved_of_carried_into_self (src : Archetype) (e : EntityID) (row : Nat) :
    (src.carried row e src).entities.getLast? = some e := by
  simp [Archetype.carried]

/-- The code of `attach` when every attached type is already carried: the destination is the
archetype of the entity itself. -/
theorem attach_eq_of_same {w : World} {e : EntityID} {d : EntityData} {p : Signature}
    {src : Archetype} (c : ComponentID × Value) (cs : List (ComponentID × Value))
    (hl : w.entities.get e = .ok d) (ha : d.arche = some p)
    (hp : w.arches.find? p = some src)
    (hsame : (Signature.build ((c :: cs).map Prod.fst)).union src.signature = p)
    (hrow : d.index < src.entities.length) :
    ∃ ev2, w.attach e c cs = .ok
        { arches := ((w.arches.assign p (src.carried d.index e src)).assign p
              ((src.carried d.index e src).erased d.index)).assign p
            (pushComponents ((src.carried d.index e src).erased d.index) (c :: cs)),
          entities := ev2 } ∧
      ev2.get e = .ok { index := src.entities.length, arche := some p } := by
  obtain ⟨ev1, h1, h2⟩ := EntityVector.patchIndex_some w.entities e d d.index hl
  have hlast := moved_of_carried_into_self src e d.index
  have hle : ev1.get e = .ok { d with index := d.index } := by rw [h2 e]; simp
  obtain ⟨ev2, h3, h4⟩ := EntityVector.get_set ev1 e _
    { index := src.entities.length, arche := some p } hle
  have hrow2 : d.index < (src.carried d.index e src).entities.length := by
    simp [Archetype.carried]; omega
  have hdest : World.attachDestination w.arches ((c :: cs).map Prod.fst) (some p) p
      = .ok w.arches := by
    simp [World.attachDestination, hp]
  refine ⟨ev2, ?_, by rw [h4 e]; simp⟩
  simp only [attach, hl, ha, bind, Except.bind, pure, Except.pure, ArcheMap.deref, hp,
    Except.map, hsame, hdest, Archetype.carryEntity_eq _ _ _ _ hrow,
    ArcheMap.find?_assign_self, Archetype.erase_eq _ _ _ hrow2 hlast, h1, h3]

/-- The code of `detach<T>` when the entity does not carry `T` and its signature is not empty:
the destination is the archetype of the entity itself. -/
theorem detach_eq_of_same {w : World} {e : EntityID} {d : EntityData} {p : Signature}
    {src : Archetype} (t : ComponentID)
    (hl : w.entities.get e = .ok d) (ha : d.arche = some p)
    (hp : w.arches.find? p = some src)
    (hsame : src.signature.set t false = p) (hany : p.any = true)
    (hrow : d.index < src.entities.length) :
    ∃ ev2, w.detach e t = .ok
        { arches := (w.arches.assign p (src.carried d.index e src)).assign p
            ((src.carried d.index e src).erased d.index),
          entities := ev2 } ∧
      ev2.get e = .ok { index := src.entities.length, arche := some p } := by
  obtain ⟨ev1, h1, h2⟩ := EntityVector.patchIndex_some w.entities e d d.index hl
  have hlast := moved_of_carried_into_self src e d.index
  have hle : ev1.get e = .ok { d with index := d.index } := by rw [h2 e]; simp
  obtain ⟨ev2, h3, h4⟩ := EntityVector.get_set ev1 e _
    { index := src.entities.length, arche := some p } hle
  have hrow2 : d.index < (src.carried d.index e src).entities.length := by
    simp [Archetype.carried]; omega
  refine ⟨ev2, ?_, by rw [h4 e]; simp⟩
  simp only [detach, hl, ha, bind, Except.bind, pure, Except.pure, ArcheMap.deref, hp,
    hsame, hany, if_true, Archetype.carryEntity_eq _ _ _ _ hrow,
    ArcheMap.find?_assign_self, Archetype.erase_eq _ _ _ hrow2 hlast, h1, h3]

end World

namespace World

theorem length_filter_fst_pos (comps : List (ComponentID × Value)) (k : ComponentID)
    (hk : k ∈ comps.map Prod.fst) :
    0 < (comps.filter (fun c => decide (c.1 = k))).length := by
  obtain ⟨y, hy, hyk⟩ := List.mem_map.1 hk
  exact List.length_pos_of_mem (List.mem_filter.2 ⟨hy, by simp [hyk]⟩)

/-- The archetype and row of a live attached entity of a well-formed world. -/
theorem WellFormed.source {w : World} (hwf : w.WellFormed) {e : EntityID} {d : EntityData}
    {p : Signature} (hl : w.entities.get e = .ok d) (ha : d.arche = some p) :
    ∃ src, w.arches.find? p = some src ∧ src.signature = p ∧ d.index < src.entities.length := by
  obtain ⟨src, hs, h2, hh, _⟩ := hwf.recordsPlaced e d p hl ha
  refine ⟨src, hs, hwf.signatureKey p src hs, ?_⟩
  by_contra hcon
  rw [List.getElem?_eq_none (by omega)] at hh
  cases hh

end World

/-! ## Attach of a carried type, detach of a missing type -/

/-- C12, the behaviour of the code: in the world `onePosition` the entity `e1` carries
`Position` (value 10, row 0 of an archetype with one row).  `attach(e1, Position{11})` returns
without a failure and changes the world: the column of `Position` now holds two values for the
one row of the entity column, and the record of `e1` names row 1, which the entity column does
not have. -/
theorem attach_of_carried_type_changes_world :
    Scenario.onePosition.WellFormed ∧
    Scenario.onePosition.has Scenario.e1 Scenario.position = .ok true ∧
    Scenario.onePosition.entities.get Scenario.e1
      = .ok { index := 0, arche := some (Signature.build [Scenario.position]) } ∧
    (Scenario.onePosition.arches.find? (Signature.build [Scenario.position])).map
        (fun a => (a.entities, a.columns Scenario.position))
      = some ([Scenario.e1], [10]) ∧
    ∃ w, Scenario.onePosition.attach Scenario.e1 (Scenario.position, 11) [] = .ok w ∧
      (w.arches.find? (Signature.build [Scenario.position])).map
          (fun a => (a.entities, a.columns Scenario.position))
        = some ([Scenario.e1], [10, 11]) ∧
      w.entities.get Scenario.e1
        = .ok { index := 1, arche := some (Signature.build [Scenario.position]) } :=
  ⟨Scenario.wellFormed_onePosition, by decide, by decide, by decide,
   ⟨_, rfl, by decide, by decide⟩⟩

/-- C12, the amended claim: on a world that satisfies the location invariant, `attach(e, Cs...)`
for a live attached entity `e` that already carries every type of `Cs` returns a world; `e`
stays recorded in its archetype, which keeps its number of rows; the recorded row of `e` is that
number of rows, one past the last row; and the column of every type of `Cs` holds more entries
than the entity column has rows. -/
theorem attach_of_carried_type_appends_entry (w : World) (e : EntityID) (d : EntityData)
    (p : Signature) (c : ComponentID × Value) (cs : List (ComponentID × Value))
    (hwf : w.WellFormed) (hl : w.entities.get e = .ok d) (ha : d.arche = some p)
    (hall : ∀ x ∈ (c :: cs).map Prod.fst, p.test x = true) :
    ∃ w2 a a2, w.attach e c cs = .ok w2 ∧ w.arches.find? p = some a ∧
      w2.arches.find? p = some a2 ∧ a2.entities.length = a.entities.length ∧
      w2.entities.get e = .ok { index := a2.entities.length, arche := some p } ∧
      ∀ x ∈ (c :: cs).map Prod.fst, a2.entities.length < (a2.columns x).length := by
  obtain ⟨src, hs, hsig, hrow⟩ := hwf.source hl ha
  have hsame : (Signature.build ((c :: cs).map Prod.fst)).union src.signature = p := by
    rw [hsig]
    apply Signature.ext_test
    intro i
    rw [Signature.test_union, Signature.test_build]
    by_cases hi : i ∈ (c :: cs).map Prod.fst
    · rw [hall i hi]; simp
    · rw [decide_eq_false hi]; simp
  obtain ⟨ev2, h1, h2⟩ := World.attach_eq_of_same c cs hl ha hs hsame hrow
  have hrow2 : d.index < (src.carried d.index e src).entities.length := by
    simp [Archetype.carried]; omega
  have hlen : (World.pushComponents ((src.carried d.index e src).erased d.index)
      (c :: cs)).entities.length = src.entities.length := by
    rw [World.entities_pushComponents, Archetype.length_entities_erased _ _ hrow2]
    simp [Archetype.carried]
  refine ⟨_, src, World.pushComponents ((src.carried d.index e src).erased d.index) (c :: cs),
    h1, hs, ArcheMap.find?_assign_self _ _ _, hlen, by rw [hlen]; exact h2, ?_⟩
  intro x hx
  have hpx := hall x hx
  have hpos := World.length_filter_fst_pos (c :: cs) x hx
  have hal := hwf.aligned p src hs x hpx
  have hv : (src.columns x)[d.index]? = some (src.columns x)[d.index] :=
    List.getElem?_eq_getElem (by omega)
  have hsx : src.signature.test x = true := by rw [hsig]; exact hpx
  have hc : ((src.carried d.index e src).columns x).length = src.entities.length + 1 := by
    simp [Archetype.carried, hsx, hv, hal]
  have hce : (((src.carried d.index e src).erased d.index).columns x).length
      = src.entities.length := by
    have hsx2 : (src.carried d.index e src).signature.test x = true := hsx
    simp only [Archetype.erased, hsx2, if_true]
    rw [length_swapRemove _ _ (by omega), hc]
    omega
  rw [hlen, World.columns_pushComponents, List.length_append, hce, List.length_map]
  omega

theorem attach_of_carried_type_appends_entry_witness :
    Scenario.twoPositions.WellFormed ∧
    Scenario.twoPositions.entities.get Scenario.e1
      = .ok { index := 0, arche := some (Signature.build [Scenario.position]) } ∧
    (∀ x ∈ [(Scenario.position, (11 : Value))].map Prod.fst,
      (Signature.build [Scenario.position]).test x = true) ∧
    ∃ w2 a a2, Scenario.twoPositions.attach Scenario.e1 (Scenario.position, 11) [] = .ok w2 ∧
      Scenario.twoPositions.arches.find? (Signature.build [Scenario.position]) = some a ∧
      w2.arches.find? (Signature.build [Scenario.position]) = some a2 ∧
      a2.entities.length = a.entities.length ∧
      w2.entities.get Scenario.e1
        = .ok { index := a2.entities.length
                arche := some (Signature.build [Scenario.position]) } ∧
      ∀ x ∈ [(Scenario.position, (11 : Value))].map Prod.fst,
        a2.entities.length < (a2.columns x).length :=
  ⟨Scenario.wellFormed_twoPositions, by decide, by decide,
   attach_of_carried_type_appends_entry Scenario.twoPositions Scenario.e1 _ _
     (Scenario.position, 11) [] Scenario.wellFormed_twoPositions
     (show Scenario.twoPositions.entities.get Scenario.e1
       = .ok { index := 0, arche := some (Signature.build [Scenario.position]) } by decide)
     rfl (by decide)⟩

/-- C13, the behaviour of the code: in the world `twoPositions` the entities `e1` and `e2` are
rows 0 and 1 of the archetype `{Position}` and neither carries `Velocity`.
`detach<Velocity>(e1)` returns without a failure and records `e1` at row 2 of that archetype,
which has the two rows it had; `get<Position>(e1)` then reads past the column.  For the
Unattached entity of the world after one `createEntity()` the call dereferences the null
archetype. -/
theorem detach_of_missing_type_moves_record :
    Scenario.twoPositions.WellFormed ∧
    Scenario.twoPositions.has Scenario.e1 Scenario.velocity = .ok false ∧
    Scenario.twoPositions.entities.get Scenario.e1
      = .ok { index := 0, arche := some (Signature.build [Scenario.position]) } ∧
    Scenario.twoPositions.get Scenario.e1 Scenario.position = .ok 10 ∧
    (∃ w, Scenario.twoPositions.detach Scenario.e1 Scenario.velocity = .ok w ∧
      (w.arches.find? (Signature.build [Scenario.position])).map Archetype.entities
        = some [Scenario.e1, Scenario.e2] ∧
      w.entities.get Scenario.e1
        = .ok { index := 2, arche := some (Signature.build [Scenario.position]) } ∧
      w.get Scenario.e1 Scenario.position = .error .rowOutOfRange) ∧
    Scenario.created1.entities.get Scenario.e1 = .ok { index := 0, arche := none } ∧
    Scenario.created1.detach Scenario.e1 Scenario.velocity = .error .nullArchetype :=
  ⟨Scenario.wellFormed_twoPositions, by decide, by decide, by decide,
   ⟨_, rfl, by decide, by decide, by decide⟩, by decide, rfl⟩

/-- C13, the amended claim: on a world that satisfies the location invariant, `detach<T>(e)` for
a live attached entity `e` that does not carry `T` returns a world.  When the signature of `e`
is not empty, `e` stays recorded in its archetype, which keeps its number of rows, and the
recorded row of `e` is that number of rows, one past the last row. -/
theorem detach_of_missing_type_returns (w : World) (e : EntityID) (d : EntityData)
    (p : Signature) (t : ComponentID)
    (hwf : w.WellFormed) (hl : w.entities.get e = .ok d) (ha : d.arche = some p)
    (hnot : p.test t = false) :
    ∃ w2, w.detach e t = .ok w2 ∧
      (p.any = true → ∃ a a2, w.arches.find? p = some a ∧ w2.arches.find? p = some a2 ∧
        a2.entities.length = a.entities.length ∧
        w2.entities.get e = .ok { index := a2.entities.length, arche := some p }) := by
  obtain ⟨src, hs, hsig, hrow⟩ := hwf.source hl ha
  have hsame : src.signature.set t false = p := by
    rw [hsig]; exact Signature.set_false_of_not_test hnot
  by_cases hany : p.any = true
  · obtain ⟨ev2, h1, h2⟩ := World.detach_eq_of_same t hl ha hs hsame hany hrow
    refine ⟨_, h1, fun _ => ⟨src, _, hs, ArcheMap.find?_assign_self _ _ _, ?_⟩⟩
    have hrow2 : d.index < (src.carried d.index e src).entities.length := by
      simp [Archetype.carried]; omega
    have hlen : ((src.carried d.index e src).erased d.index).entities.length
        = src.entities.length := by
      rw [Archetype.length_entities_erased _ _ hrow2]
      simp [Archetype.carried]
    exact ⟨hlen, by rw [hlen]; exact h2⟩
  · have hany2 : (src.signature.set t false).any = false := by
      rw [hsame]; simpa using hany
    obtain ⟨last, ev1, ev2, hlast, hpatch, hset, _⟩ := hwf.patch_and_set hl ha hs
      { index := 0, arche := none }
    exact ⟨_, World.detach_eq_of_empty t hl ha hs hany2 hrow hlast hpatch hset,
      fun h => absurd h hany⟩

theorem detach_of_missing_type_returns_witness :
    Scenario.twoPositions.WellFormed ∧
    Scenario.twoPositions.entities.get Scenario.e1
      = .ok { index := 0, arche := some (Signature.build [Scenario.position]) } ∧
    (Signature.build [Scenario.position]).test Scenario.velocity = false ∧
    ∃ w2, Scenario.twoPositions.detach Scenario.e1 Scenario.velocity = .ok w2 ∧
      ((Signature.build [Scenario.position]).any = true →
        ∃ a a2, Scenario.twoPositions.arches.find? (Signature.build [Scenario.position])
            = some a ∧
          w2.arches.find? (Signature.build [Scenario.position]) = some a2 ∧
          a2.entities.length = a.entities.length ∧
          w2.entities.get Scenario.e1
            = .ok { index := a2.entities.length
                    arche := some (Signature.build [Scenario.position]) }) :=
  ⟨Scenario.wellFormed_twoPositions, by decide, by decide,
   detach_of_missing_type_returns Scenario.twoPositions Scenario.e1 _ _ Scenario.velocity
     Scenario.wellFormed_twoPositions
     (show Scenario.twoPositions.entities.get Scenario.e1
       = .ok { index := 0, arche := some (Signature.build [Scenario.position]) } by decide)
     rfl (by decide)⟩

namespace EntityVector

/-! ## Shape of the entity index -/

end EntityVector

namespace Signature

end Signature

/-! ## Detach of the only component -/

namespace View

theorem length_positionsFrom (counts : List Nat) (s : Nat) :
    (positionsFrom s counts).length = counts.sum := by
  induction counts generalizing s with
  | nil => rfl
  | cons n rest ih => simp [positionsFrom, ih]

theorem mem_positionsFrom (counts : List Nat) (s i r : Nat)
    (h : (i, r) ∈ positionsFrom s counts) :
    s ≤ i ∧ ∃ n, counts[i - s]? = some n ∧ r < n := by
  induction counts generalizing s with
  | nil => simp [positionsFrom] at h
  | cons n rest ih =>
    simp only [positionsFrom, List.mem_append, List.mem_map, List.mem_range, Prod.mk.injEq] at h
    rcases h with ⟨x, hx, rfl, rfl⟩ | h
    · exact ⟨Nat.le_refl _, n, by simp, hx⟩
    · obtain ⟨h1, m, h2, h3⟩ := ih (s + 1) h
      refine ⟨by omega, m, ?_, h3⟩
      have : i - s = (i - (s + 1)) + 1 := by omega
      rw [this, List.getElem?_cons_succ]
      exact h2

theorem nodup_positionsFrom (counts : List Nat) (s : Nat) : (positionsFrom s counts).Nodup := by
  induction counts generalizing s with
  | nil => simp [positionsFrom]
  | cons n rest ih =>
    simp only [positionsFrom]
    refine List.Nodup.append ?_ (ih (s + 1)) ?_
    · exact List.Nodup.map (fun a b hab => by simpa using hab) (List.nodup_range n)
    · intro x hx1 hx2
      obtain ⟨i, r⟩ := x
      simp only [List.mem_map, List.mem_range, Prod.mk.injEq] at hx1
      obtain ⟨y, -, hy, -⟩ := hx1
      have := (mem_positionsFrom rest (s + 1) i r hx2).1
      omega

end View

namespace ViewIterator

theorem advance_add (w : World) (j k : Nat) (it : ViewIterator) :
    advance w (j + k) it = (advance w j it).bind (advance w k) := by
  induction j generalizing it with
  | zero => simp [advance, Except.bind]
  | succ j ih =>
    have : j + 1 + k = (j + k) + 1 := by omega
    rw [this]
    simp only [advance, bind, Except.bind]
    cases it.next w with
    | error x => rfl
    | ok it2 => exact ih it2

/-- The steps of `operator++` inside one archetype. -/
theorem advance_row (w : World) (arches : List Signature) (i : Nat) (p : Signature)
    (a : Archetype) (hf : w.arches.find? p = some a) (k r : Nat)
    (h : r + k < a.entities.length) :
    advance w k { arches := arches, cacheIndex := i, index := r, cache := { arche := some p } }
      = .ok { arches := arches, cacheIndex := i, index := r + k,
              cache := { arche := some p } } := by
  induction k generalizing r with
  | zero => rfl
  | succ k ih =>
    have hne : ¬ r + 1 = a.entities.length := by omega
    have hstep : next w
        { arches := arches, cacheIndex := i, index := r, cache := { arche := some p } }
        = .ok { arches := arches, cacheIndex := i, index := r + 1,
                cache := { arche := some p } } := by
      simp [next, Cache.size, ArcheMap.deref, hf, Except.map, bind, Except.bind, Archetype.size,
        hne, pure, Except.pure]
    simp only [advance, bind, Except.bind, hstep]
    rw [ih (r + 1) (by omega)]
    have : r + 1 + k = r + (k + 1) := by omega
    rw [this]

/-- The step of `operator++` and whether it rebuilds the cache, at a row of a matched
archetype. -/
theorem next_of_position (w : World) (arches : List Signature) (i r : Nat) (p : Signature)
    (a : Archetype) (hi : arches[i]? = some p) (hf : w.arches.find? p = some a) :
    ∃ it2, next w
        { arches := arches, cacheIndex := i, index := r, cache := { arche := some p } }
        = .ok it2 ∧
      it2.arches = arches ∧
      (it2.cacheIndex, it2.index) =
        (if r + 1 = a.entities.length then (i + 1, 0) else (i, r + 1)) ∧
      (it2.cacheIndex < arches.length → it2.cache = { arche := arches[it2.cacheIndex]? }) ∧
      rebuilds w
        { arches := arches, cacheIndex := i, index := r, cache := { arche := some p } }
        = .ok (decide (it2.cacheIndex ≠ i ∧ it2.cacheIndex < arches.length)) := by
  have hil : i < arches.length := by
    by_contra hcon
    rw [List.getElem?_eq_none (by omega)] at hi
    cases hi
  by_cases hend : r + 1 = a.entities.length
  · by_cases hlast : i + 1 = arches.length
    · refine ⟨{ arches := arches, cacheIndex := i + 1, index := 0,
                cache := { arche := some p } }, ?_, rfl, by simp [hend], ?_, ?_⟩
      · simp [next, Cache.size, ArcheMap.deref, hf, Except.map, bind, Except.bind,
          Archetype.size, hend, hlast, pure, Except.pure]
      · intro h
        simp only at h
        omega
      · simp [rebuilds, Cache.size, ArcheMap.deref, hf, Except.map, bind, Except.bind,
          Archetype.size, hend, hlast, pure, Except.pure]
    · have hlt : i + 1 < arches.length := by omega
      have hq : arches[i + 1]? = some arches[i + 1] := List.getElem?_eq_getElem hlt
      refine ⟨{ arches := arches, cacheIndex := i + 1, index := 0,
                cache := { arche := some arches[i + 1] } }, ?_, rfl, by simp [hend], ?_, ?_⟩
      · simp [next, Cache.size, ArcheMap.deref, hf, Except.map, bind, Except.bind,
          Archetype.size, hend, hlast, hq, pure, Except.pure]
      · intro _
        simp only [hq]
      · simp [rebuilds, Cache.size, ArcheMap.deref, hf, Except.map, bind, Except.bind,
          Archetype.size, hend, hlast, hq, hlt, pure, Except.pure]
  · refine ⟨{ arches := arches, cacheIndex := i, index := r + 1,
              cache := { arche := some p } }, ?_, rfl, by simp [hend], ?_, ?_⟩
    · simp [next, Cache.size, ArcheMap.deref, hf, Except.map, bind, Except.bind,
        Archetype.size, hend, pure, Except.pure]
    · intro _
      simp only [hi]
    · simp [rebuilds, Cache.size, ArcheMap.deref, hf, Except.map, bind, Except.bind,
        Archetype.size, hend, pure, Except.pure]

theorem getElem?_append_length_add {α : Type} (pre suf : List α) (j : Nat) :
    (pre ++ suf)[pre.length + j]? = suf[j]? := by
  rw [List.getElem?_append_right (by omega)]
  congr 1
  omega

theorem rowCounts_cons (w : World) (p : Signature) (rest : List Signature) (a : Archetype)
    (hf : w.arches.find? p = some a) :
    w.rowCounts (p :: rest) = a.entities.length :: w.rowCounts rest := by
  simp [World.rowCounts, hf, Archetype.size]

/-- The states of the iteration over the archetypes `suf`, started at the first row of the
first of them. -/
theorem advance_positions (w : World) (suf : List Signature) :
    ∀ (pre : List Signature) (c : Cache),
      (∀ p ∈ suf, (w.arches.find? p).map Archetype.empty = some false) →
      (∀ q rest, suf = q :: rest → c = { arche := some q }) →
      (∀ k i r, (View.positionsFrom pre.length (w.rowCounts suf))[k]? = some (i, r) →
        advance w k { arches := pre ++ suf, cacheIndex := pre.length, index := 0, cache := c }
          = .ok { arches := pre ++ suf, cacheIndex := i, index := r,
                  cache := { arche := (pre ++ suf)[i]? } }) ∧
      ∃ c2, advance w (View.positionsFrom pre.length (w.rowCounts suf)).length
          { arches := pre ++ suf, cacheIndex := pre.length, index := 0, cache := c }
        = .ok { arches := pre ++ suf, cacheIndex := (pre ++ suf).length, index := 0,
                cache := c2 } := by
  induction suf with
  | nil =>
    intro pre c _ _
    refine ⟨fun k i r h => by simp [World.rowCounts, View.positionsFrom] at h, c, ?_⟩
    simp [World.rowCounts, View.positionsFrom, advance]
  | cons p rest ih =>
    intro pre c hne hc
    have hp := hne p (List.mem_cons_self _ _)
    obtain ⟨a, hf, hemp⟩ : ∃ a, w.arches.find? p = some a ∧ a.empty = false := by
      cases hfa : w.arches.find? p with
      | none => rw [hfa] at hp; cases hp
      | some a => rw [hfa] at hp; exact ⟨a, rfl, by simpa using hp⟩
    have hpos : 0 < a.entities.length := by
      cases hea : a.entities with
      | nil => simp [Archetype.empty, hea] at hemp
      | cons x xs => simp
    have hcp : c = { arche := some p } := hc p rest rfl
    subst hcp
    have hrow : ∀ k, k < a.entities.length →
        advance w k { arches := pre ++ p :: rest, cacheIndex := pre.length, index := 0,
                      cache := { arche := some p } }
          = .ok { arches := pre ++ p :: rest, cacheIndex := pre.length, index := k,
                  cache := { arche := some p } } := by
      intro k hk
      have := advance_row w (pre ++ p :: rest) pre.length p a hf k 0 (by omega)
      rw [this]
      simp
    have hat : (pre ++ p :: rest)[pre.length]? = some p := by
      have := getElem?_append_length_add pre (p :: rest) 0
      simpa using this
    obtain ⟨it1, hn1, ha1, hpos1, hcache1, -⟩ :=
      next_of_position w (pre ++ p :: rest) pre.length (a.entities.length - 1) p a hat hf
    have hlen1 : a.entities.length - 1 + 1 = a.entities.length := by omega
    simp only [hlen1, if_true, Prod.mk.injEq] at hpos1
    obtain ⟨arches1, ci1, idx1, c1⟩ := it1
    simp only at ha1 hpos1 hcache1
    obtain ⟨hci, hidx⟩ := hpos1
    subst ha1 hci hidx
    have hfull : advance w a.entities.length
        { arches := pre ++ p :: rest, cacheIndex := pre.length, index := 0,
          cache := { arche := some p } }
        = .ok { arches := pre ++ p :: rest, cacheIndex := pre.length + 1, index := 0,
                cache := c1 } := by
      have h1 : a.entities.length = (a.entities.length - 1) + 1 := by omega
      rw [h1, advance_add, hrow _ (by omega)]
      simp only [Except.bind, advance, bind, hn1]
    have hc1 : ∀ q rest2, rest = q :: rest2 → c1 = { arche := some q } := by
      intro q rest2 hq
      subst hq
      rw [hcache1 (by simp), getElem?_append_length_add pre (p :: q :: rest2) 1]
      simp
    have hne2 : ∀ p2 ∈ rest, (w.arches.find? p2).map Archetype.empty = some false :=
      fun p2 hp2 => hne p2 (List.mem_cons_of_mem _ hp2)
    obtain ⟨ih1, c2, ih2⟩ := ih (pre ++ [p]) c1 hne2 hc1
    simp only [List.append_assoc, List.singleton_append, List.length_append,
      List.length_singleton] at ih1 ih2
    rw [rowCounts_cons w p rest a hf]
    simp only [View.positionsFrom]
    refine ⟨?_, c2, ?_⟩
    · intro k i r hk
      by_cases hlt : k < a.entities.length
      · rw [List.getElem?_append_left (by simpa using hlt)] at hk
        simp only [List.getElem?_map, List.getElem?_range hlt, Option.map_some,
          Option.some.injEq, Prod.mk.injEq] at hk
        obtain ⟨rfl, rfl⟩ := hk
        rw [hrow k hlt, hat]
      · rw [List.getElem?_append_right (by simpa using hlt)] at hk
        simp only [List.length_map, List.length_range] at hk
        have hk2 : k = a.entities.length + (k - a.entities.length) := by omega
        rw [hk2, advance_add, hfull]
        simp only [Except.bind]
        exact ih1 _ i r hk
    · simp only [List.length_append, List.length_map, List.length_range]
      rw [advance_add, hfull]
      simp only [Except.bind]
      rw [ih2]

end ViewIterator

/-- C19: for every list of matched archetypes that are all non-empty, the iterator at outer
cursor 0 and row 0 is, after `k` applications of `operator++`, at the `k`-th of the positions
`(0,0), ..., (0,n_0-1), (1,0), ..., (m-1,n_(m-1)-1)`; its row is a row of the archetype under
the outer cursor; the next application returns, and it rebuilds the cache exactly when it moves
the outer cursor to an index below `m`.  No position occurs twice, there are
`n_0 + ... + n_(m-1)` positions, and after that many applications the outer cursor is `m`. -/
theorem viewIterator_visits_rows_in_order (w : World) (arches : List Signature)
    (hne : ∀ p ∈ arches, (w.arches.find? p).map Archetype.empty = some false) :
    (∀ k i r, (View.positions (w.rowCounts arches))[k]? = some (i, r) →
      ∃ it it2 n, ViewIterator.advance w k (ViewIterator.new arches 0 0) = .ok it ∧
        it.cacheIndex = i ∧ it.index = r ∧
        (w.rowCounts arches)[i]? = some n ∧ r < n ∧
        it.next w = .ok it2 ∧
        it.rebuilds w = .ok
          (decide (it2.cacheIndex ≠ it.cacheIndex ∧ it2.cacheIndex < arches.length))) ∧
    (View.positions (w.rowCounts arches)).Nodup ∧
    (View.positions (w.rowCounts arches)).length = (w.rowCounts arches).sum ∧
    ∃ it, ViewIterator.advance w (w.rowCounts arches).sum (ViewIterator.new arches 0 0)
        = .ok it ∧ it.cacheIndex = arches.length := by
  have hc : ∀ q rest, arches = q :: rest →
      (ViewIterator.new arches 0 0).cache = { arche := some q } := by
    intro q rest h
    subst h
    simp [ViewIterator.new]
  obtain ⟨h1, c2, h2⟩ := ViewIterator.advance_positions w arches []
    (ViewIterator.new arches 0 0).cache hne hc
  simp only [List.nil_append, List.length_nil] at h1 h2
  have hnew : ViewIterator.new arches 0 0
      = { arches := arches, cacheIndex := 0, index := 0,
          cache := (ViewIterator.new arches 0 0).cache } := rfl
  refine ⟨?_, View.nodup_positionsFrom _ 0, View.length_positionsFrom _ 0, ?_⟩
  · intro k i r hk
    have hadv := h1 k i r hk
    obtain ⟨-, n, hn, hrn⟩ := View.mem_positionsFrom _ 0 i r (List.getElem?_mem hk)
    simp only [Nat.sub_zero] at hn
    have hn2 := hn
    simp only [World.rowCounts, List.getElem?_map] at hn2
    cases hp : arches[i]? with
    | none => rw [hp] at hn2; cases hn2
    | some p =>
      have hpm := hne p (List.getElem?_mem hp)
      cases hfa : w.arches.find? p with
      | none => rw [hfa] at hpm; cases hpm
      | some a =>
        obtain ⟨it2, hnext, -, -, -, hreb⟩ :=
          ViewIterator.next_of_position w arches i r p a hp hfa
        rw [hp] at hadv
        refine ⟨_, it2, n, ?_, rfl, rfl, hn, hrn, hnext, hreb⟩
        rw [hnew]
        exact hadv
  · refine ⟨{ arches := arches, cacheIndex := arches.length, index := 0, cache := c2 }, ?_, rfl⟩
    rw [← View.length_positionsFrom _ 0, hnew]
    exact h2

theorem viewIterator_visits_rows_in_order_witness :
    (∀ p ∈ [Signature.build [Scenario.position],
            Signature.build [Scenario.position, Scenario.velocity]],
      (Scenario.positionVelocity.arches.find? p).map Archetype.empty = some false) ∧
    View.positions (Scenario.positionVelocity.rowCounts
      [Signature.build [Scenario.position],
       Signature.build [Scenario.position, Scenario.velocity]]) = [(0, 0), (1, 0)] ∧
    ∃ it, ViewIterator.advance Scenario.positionVelocity
        (Scenario.positionVelocity.rowCounts
          [Signature.build [Scenario.position],
           Signature.build [Scenario.position, Scenario.velocity]]).sum
        (ViewIterator.new [Signature.build [Scenario.position],
           Signature.build [Scenario.position, Scenario.velocity]] 0 0) = .ok it ∧
      it.cacheIndex = [Signature.build [Scenario.position],
           Signature.build [Scenario.position, Scenario.velocity]].length :=
  ⟨by decide, by decide,
   (viewIterator_visits_rows_in_order Scenario.positionVelocity
     [Signature.build [Scenario.position],
      Signature.build [Scenario.position, Scenario.velocity]] (by decide)).2.2.2⟩

/-! ## Live handles -/

namespace EntityVector

end EntityVector

namespace World

/-! ## Handles of the entity columns -/

end World

namespace World

end World

namespace World

end World

namespace Scenario

end Scenario

/-! ## Location invariant -/

end Byte
